import Mathlib

/-!
Verification of the quizx rewriting core (`src/quizx/src/simplify.rs`).

The graph data structure (`GraphLike`) and the ZX rule library
(`basic_rules.rs`) are external collaborators of the code under `src/`;
they are modelled from the spec's interface description (§3, §6).  The
rewrite drivers, named passes, composite strategies and `fuse_gadgets`
are shallowly embedded from `simplify.rs`, with each unbounded `while`
loop turned into a fuel-indexed recursion returning `Option` (`none`
means the fuel ran out before the loop finished).
-/

namespace QuizX

/-- Vertex handles, `V` in the source. -/
abbrev V := Nat

/-- Modelled from the spec: vertex kinds Z-spider, X-spider, Boundary (§3). -/
inductive VType where
  | Z
  | X
  | B
deriving DecidableEq, Repr

/-- Modelled from the spec: edge kinds Normal and Hadamard (§3). -/
inductive EType where
  | N
  | H
deriving DecidableEq, Repr

/-- Modelled from the spec: the Diagram data model (§3): a mutable typed
multigraph over vertex handles with per-vertex kind and phase, and typed
edges.  Lists keep the enumeration order of the underlying storage. -/
structure Graph where
  verts : List V
  types : List (V × VType)
  phases : List (V × ℚ)
  edges : List (V × V × EType)
deriving DecidableEq, Repr

/-- Floor of a rational, computed from its reduced fraction. -/
def floorQ (q : ℚ) : ℤ := q.num.fdiv q.den

/-- Modelled from the spec: phases are rationals stored modulo 2 (§3). -/
def phaseMod2 (q : ℚ) : ℚ := q - 2 * (floorQ (q / 2) : ℚ)

/-- Modelled from the spec: number of vertices (`num_vertices`). -/
def numVertices (g : Graph) : Nat := g.verts.length

/-- Modelled from the spec: existence test for a handle (`contains_vertex`). -/
def containsVertex (g : Graph) (v : V) : Bool := g.verts.contains v

/-- Modelled from the spec: vertex kind query (`vertex_type`); unknown
handles report Boundary. -/
def vertexType (g : Graph) (v : V) : VType :=
  ((g.types.find? (fun p => p.1 == v)).map Prod.snd).getD VType.B

/-- Modelled from the spec: phase query (`phase`); unknown handles report 0. -/
def phase (g : Graph) (v : V) : ℚ :=
  ((g.phases.find? (fun p => p.1 == v)).map Prod.snd).getD 0

/-- Modelled from the spec: incident edges of a vertex as
(other endpoint, kind) pairs (`incident_edges`). -/
def incidentEdges (g : Graph) (v : V) : List (V × EType) :=
  g.edges.filterMap (fun e =>
    if e.1 == v then some (e.2.1, e.2.2)
    else if e.2.1 == v then some (e.1, e.2.2)
    else none)

/-- Modelled from the spec: degree = number of incident edges (§3). -/
def degree (g : Graph) (v : V) : Nat := (incidentEdges g v).length

/-- Modelled from the spec: first neighbor of a vertex
(`g.neighbors(v).next()`). -/
def firstNeighbor (g : Graph) (v : V) : Option V :=
  ((incidentEdges g v).head?).map Prod.fst

/-- Modelled from the spec: delete a vertex together with its record and
incident edges (`remove_vertex`). -/
def removeVertex (g : Graph) (v : V) : Graph :=
  { verts := g.verts.filter (fun w => w ≠ v)
    types := g.types.filter (fun p => p.1 ≠ v)
    phases := g.phases.filter (fun p => p.1 ≠ v)
    edges := g.edges.filter (fun e => e.1 ≠ v ∧ e.2.1 ≠ v) }

/-- Modelled from the spec: add to a vertex's phase, modulo 2
(`add_to_phase`). -/
def addToPhase (g : Graph) (v : V) (q : ℚ) : Graph :=
  { g with phases :=
      g.phases.map (fun p => if p.1 == v then (p.1, phaseMod2 (p.2 + q)) else p) }

/-- Modelled from the spec: add an edge (`add_edge`). -/
def addEdge (g : Graph) (s t : V) (et : EType) : Graph :=
  { g with edges := g.edges ++ [(s, t, et)] }

/-- Modelled from the spec: remove an edge (`remove_edge`). -/
def removeEdge (g : Graph) (s t : V) (et : EType) : Graph :=
  { g with edges := g.edges.filter (fun e => e ≠ (s, t, et)) }

/-- Edge presence test. -/
def hasEdge (g : Graph) (s t : V) (et : EType) : Bool :=
  g.edges.contains (s, t, et)

/-- Modelled from the spec: convert every X-kind vertex to Z-kind,
absorbing the basis change into the kinds of incident edges (`x_to_z`,
§4.3): an edge's kind is toggled once for each X endpoint. -/
def xToZ (g : Graph) : Graph :=
  let isX : V → Bool := fun v => vertexType g v == VType.X
  let flip : EType → EType := fun et => match et with | EType.N => EType.H | EType.H => EType.N
  { verts := g.verts
    types := g.types.map (fun p => (p.1, if p.2 = VType.X then VType.Z else p.2))
    phases := g.phases
    edges := g.edges.map (fun e =>
      (e.1, e.2.1,
        (if isX e.1 then flip else id) ((if isX e.2.1 then flip else id) e.2.2))) }

/-! ## Rewrite drivers (`vertex_simp`, `edge_simp`, simplify.rs lines 28-82) -/

/-- One step of the vertex scan: `if check(g, v) { rule(g, v); new_matches = true }`. -/
def vertexSimpStep (check : Graph → V → Bool) (rule : Graph → V → Graph)
    (p : Graph × Bool) (v : V) : Graph × Bool :=
  if check p.1 v then (rule p.1 v, true) else p

/-- One round of `vertex_simp`: a full scan of the snapshot
`g.vertex_vec()` taken at the start of the round, mutating the graph as
matches are applied.  Returns the resulting graph and whether any match
occurred this round. -/
def vertexSimpRound (check : Graph → V → Bool) (rule : Graph → V → Graph)
    (g : Graph) : Graph × Bool :=
  g.verts.foldl (vertexSimpStep check rule) (g, false)

/-- One step of the edge scan: the snapshotted triple is skipped unless
its kind equals the requested kind and both endpoints still exist
(simplify.rs lines 69-73), then `check` and possibly `rule` run. -/
def edgeSimpStep (edgeType : EType) (check : Graph → V → V → Bool)
    (rule : Graph → V → V → Graph) (p : Graph × Bool) (e : V × V × EType) :
    Graph × Bool :=
  if e.2.2 == edgeType && containsVertex p.1 e.1 && containsVertex p.1 e.2.1 &&
     check p.1 e.1 e.2.1 then
    (rule p.1 e.1 e.2.1, true)
  else p

/-- One round of `edge_simp` over the snapshot `g.edge_vec()`. -/
def edgeSimpRound (edgeType : EType) (check : Graph → V → V → Bool)
    (rule : Graph → V → V → Graph) (g : Graph) : Graph × Bool :=
  g.edges.foldl (edgeSimpStep edgeType check rule) (g, false)

/-- The shared round-iteration structure of `vertex_simp` and `edge_simp`:
`while new_matches { numv = num_vertices; (scan); if force_reduce && numv >=
num_vertices { break } }`, fuel-indexed.  `gm` accumulates `got_match`. -/
def simpLoop (round : Graph → Graph × Bool) (forceReduce : Bool) :
    Nat → Graph → Bool → Option (Graph × Bool)
  | 0, _, _ => none
  | fuel + 1, g, gm =>
    let numv := numVertices g
    let r := round g
    let gm' := gm || r.2
    if forceReduce && decide (numVertices r.1 ≤ numv) then some (r.1, gm')
    else if r.2 then simpLoop round forceReduce fuel r.1 gm'
    else some (r.1, gm')

/-- `vertex_simp` (simplify.rs lines 28-52), fuel-indexed. -/
def vertexSimp (check : Graph → V → Bool) (rule : Graph → V → Graph)
    (forceReduce : Bool) (fuel : Nat) (g : Graph) : Option (Graph × Bool) :=
  simpLoop (vertexSimpRound check rule) forceReduce fuel g false

/-- `edge_simp` (simplify.rs lines 54-82), fuel-indexed. -/
def edgeSimp (edgeType : EType) (check : Graph → V → V → Bool)
    (rule : Graph → V → V → Graph) (forceReduce : Bool) (fuel : Nat)
    (g : Graph) : Option (Graph × Bool) :=
  simpLoop (edgeSimpRound edgeType check rule) forceReduce fuel g false

/-! ## Rule library and named passes (simplify.rs lines 84-102)

The concrete matching predicates and rewrite actions live in
`basic_rules.rs`, which is external to the code under `src/`; the spec
(§2, §6) specifies them only at their interface boundary, so the named
passes are parametrised by a library of check/rule pairs. -/

/-- Modelled from the spec: the Rule Library interface (§6): one match
predicate and one rewrite action per named ZX rule, vertex rules over
(diagram, vertex), edge rules over (diagram, source, target). -/
structure RuleLib where
  checkRemoveId : Graph → V → Bool
  removeIdUnchecked : Graph → V → Graph
  checkLocalComp : Graph → V → Bool
  localCompUnchecked : Graph → V → Graph
  checkSpiderFusion : Graph → V → V → Bool
  spiderFusionUnchecked : Graph → V → V → Graph
  checkPivot : Graph → V → V → Bool
  pivotUnchecked : Graph → V → V → Graph
  checkGenPivotReduce : Graph → V → V → Bool
  genPivotUnchecked : Graph → V → V → Graph

/-- `id_simp` (simplify.rs line 84): identity-removal to a fixpoint. -/
def idSimp (L : RuleLib) (fuel : Nat) (g : Graph) : Option (Graph × Bool) :=
  vertexSimp L.checkRemoveId L.removeIdUnchecked false fuel g

/-- `local_comp_simp` (simplify.rs line 88). -/
def localCompSimp (L : RuleLib) (fuel : Nat) (g : Graph) : Option (Graph × Bool) :=
  vertexSimp L.checkLocalComp L.localCompUnchecked false fuel g

/-- `spider_simp` (simplify.rs line 92): spider fusion over Normal edges. -/
def spiderSimp (L : RuleLib) (fuel : Nat) (g : Graph) : Option (Graph × Bool) :=
  edgeSimp EType.N L.checkSpiderFusion L.spiderFusionUnchecked false fuel g

/-- `pivot_simp` (simplify.rs line 96): pivot over Hadamard edges. -/
def pivotSimp (L : RuleLib) (fuel : Nat) (g : Graph) : Option (Graph × Bool) :=
  edgeSimp EType.H L.checkPivot L.pivotUnchecked false fuel g

/-- `gen_pivot_simp` (simplify.rs line 100): generalized pivot over
Hadamard edges. -/
def genPivotSimp (L : RuleLib) (fuel : Nat) (g : Graph) : Option (Graph × Bool) :=
  edgeSimp EType.H L.checkGenPivotReduce L.genPivotUnchecked false fuel g

/-! ## Composite strategies (simplify.rs lines 104-133, 178-188) -/

/-- The shared outer-loop structure of the composite strategies:
`while m { m = round(g); if m { got_match = true } }`, fuel-indexed,
over a round that may itself run out of fuel. -/
def simpLoopO (round : Graph → Option (Graph × Bool)) :
    Nat → Graph → Bool → Option (Graph × Bool)
  | 0, _, _ => none
  | fuel + 1, g, gm =>
    (round g).bind fun r =>
      if r.2 then simpLoopO round fuel r.1 true
      else some (r.1, gm)

/-- The body of `interior_clifford_simp`'s loop (simplify.rs lines
110-113): `m = id_simp(g) || spider_simp(g) || pivot_simp(g) ||
local_comp_simp(g)` with Rust's short-circuit `||`: each later pass runs
only if every earlier one reported no match. -/
def fourPassRound (L : RuleLib) (F : Nat) (g : Graph) : Option (Graph × Bool) :=
  (idSimp L F g).bind fun p1 =>
  if p1.2 then some (p1.1, true) else
  (spiderSimp L F p1.1).bind fun p2 =>
  if p2.2 then some (p2.1, true) else
  (pivotSimp L F p2.1).bind fun p3 =>
  if p3.2 then some (p3.1, true) else
  (localCompSimp L F p3.1).bind fun p4 =>
  some (p4.1, p4.2)

/-- `interior_clifford_simp` (simplify.rs lines 104-118): one
spider-fusion pass whose result is discarded, then `x_to_z`, then the
four-pass disjunction iterated to a fixpoint.  `F` is the fuel handed to
each named pass, `fuel` bounds the outer loop. -/
def interiorCliffordSimp (L : RuleLib) (F fuel : Nat) (g : Graph) :
    Option (Graph × Bool) :=
  (spiderSimp L F g).bind fun p =>
  simpLoopO (fourPassRound L F) fuel (xToZ p.1) false

/-- The body of `interior_clifford_simp`'s loop as the spec's words
describe it (§4.3): "each round tries all four in sequence and the round
is considered to have made progress if any one did" — all four passes
run, and their match reports are disjoined. -/
def fourPassRoundSpec (L : RuleLib) (F : Nat) (g : Graph) : Option (Graph × Bool) :=
  (idSimp L F g).bind fun p1 =>
  (spiderSimp L F p1.1).bind fun p2 =>
  (pivotSimp L F p2.1).bind fun p3 =>
  (localCompSimp L F p3.1).bind fun p4 =>
  some (p4.1, p1.2 || p2.2 || p3.2 || p4.2)

/-- `interior_clifford_simp` as the spec's words describe it, driving
`fourPassRoundSpec` instead of the short-circuit round. -/
def interiorCliffordSimpSpec (L : RuleLib) (F fuel : Nat) (g : Graph) :
    Option (Graph × Bool) :=
  (spiderSimp L F g).bind fun p =>
  simpLoopO (fourPassRoundSpec L F) fuel (xToZ p.1) false

/-- The body of `clifford_simp`'s loop (simplify.rs lines 126-127):
`m = interior_clifford_simp(g) || gen_pivot_simp(g)` with short-circuit
`||`: the generalized-pivot sweep runs only when the interior pass
reported no match. -/
def cliffordRound (L : RuleLib) (F ifuel : Nat) (g : Graph) :
    Option (Graph × Bool) :=
  (interiorCliffordSimp L F ifuel g).bind fun p =>
  if p.2 then some (p.1, true) else
  (genPivotSimp L F p.1).bind fun q =>
  some (q.1, q.2)

/-- `clifford_simp` (simplify.rs lines 120-133). -/
def cliffordSimp (L : RuleLib) (F ifuel fuel : Nat) (g : Graph) :
    Option (Graph × Bool) :=
  simpLoopO (cliffordRound L F ifuel) fuel g false

/-! ## Gadget fusion (`fuse_gadgets`, simplify.rs lines 135-176) -/

/-- Ascending insertion into a sorted list of handles; `insortNat` and
`sortNat` realise `nhd.sort()`. -/
def insortNat (x : Nat) : List Nat → List Nat
  | [] => [x]
  | y :: ys => if x ≤ y then x :: y :: ys else y :: insortNat x ys

/-- Sort a list of handles ascending (`nhd.sort()`). -/
def sortNat : List Nat → List Nat
  | [] => []
  | x :: xs => insortNat x (sortNat xs)

/-- The grouping key computed for a candidate leaf `v` with hub `w`
(simplify.rs lines 143-149).  Faithful to the source: for every incident
edge `(n, et)` of the hub with `n` a Z-vertex, `et` Hadamard and
`n ≠ v`, the source pushes `v` (the leaf itself, line 147) — not `n` —
onto `nhd`, then sorts. -/
def gadgetKey (g : Graph) (v w : V) : List V :=
  sortNat ((incidentEdges g w).filterMap fun p =>
    if vertexType g p.1 == VType.Z && p.2 == EType.H && p.1 != v then some v
    else none)

/-- The grouping key as the spec's words describe it (§4.3 step 1):
"collect the hub's other Hadamard-Z-neighbors, sort them into a
canonical signature" — the neighbor `n` is pushed. -/
def gadgetKeySpec (g : Graph) (v w : V) : List V :=
  sortNat ((incidentEdges g w).filterMap fun p =>
    if vertexType g p.1 == VType.Z && p.2 == EType.H && p.1 != v then some p.1
    else none)

/-- Append a (hub, leaf) pair under a key, keeping insertion order of
keys and of pairs within a key (the map `gadgets`). -/
def insertGadget (m : List (List V × List (V × V))) (key : List V)
    (pr : V × V) : List (List V × List (V × V)) :=
  match m with
  | [] => [(key, [pr])]
  | kv :: rest =>
    if kv.1 = key then (kv.1, kv.2 ++ [pr]) :: rest
    else kv :: insertGadget rest key pr

/-- The scan phase of `fuse_gadgets` (simplify.rs lines 138-157),
parametrised by the key function: every zero-phase Z-vertex of degree 1
contributes the pair (hub, leaf) under its key. -/
def buildGadgetsWith (key : Graph → V → V → List V) (g : Graph) :
    List (List V × List (V × V)) :=
  g.verts.foldl (fun m v =>
    if vertexType g v == VType.Z && decide (phase g v = 0) then
      if degree g v == 1 then
        match firstNeighbor g v with
        | some w => insertGadget m (key g v w) (w, v)
        | none => m
      else m
    else m) []

/-- The scan phase with the source's key. -/
def buildGadgets (g : Graph) : List (List V × List (V × V)) :=
  buildGadgetsWith gadgetKey g

/-- One merged-away pair inside a group (simplify.rs lines 165-169):
read the leaf's phase into the accumulator, then delete the hub and the
leaf. -/
def fuseStep (acc : Graph × ℚ) (pr : V × V) : Graph × ℚ :=
  let ph := acc.2 + phase acc.1 pr.2
  (removeVertex (removeVertex acc.1 pr.1) pr.2, ph)

/-- Processing of one signature group (simplify.rs lines 160-172): a
group with more than one pair keeps its first leaf, removes every other
(hub, leaf) pair and adds the accumulated phase to the kept leaf; a
group with at most one pair is left alone. -/
def fuseGroupStep (acc : Graph × Bool) (kv : List V × List (V × V)) :
    Graph × Bool :=
  match kv.2 with
  | p0 :: p1 :: rest =>
    let r := (p1 :: rest).foldl fuseStep (acc.1, 0)
    (addToPhase r.1 p0.2 r.2, true)
  | _ => acc

/-- The rewrite phase of `fuse_gadgets` (simplify.rs lines 159-173) over
an already-computed group list. -/
def fuseGroups (g0 : Graph) (groups : List (List V × List (V × V))) :
    Graph × Bool :=
  groups.foldl fuseGroupStep (g0, false)

/-- `fuse_gadgets` (simplify.rs lines 135-176). -/
def fuseGadgets (g : Graph) : Graph × Bool :=
  fuseGroups g (buildGadgets g)

/-- `fuse_gadgets` as the spec's words describe it: identical except
that pairs are grouped by the sorted list of the hub's other
Hadamard-edge Z-neighbors. -/
def fuseGadgetsSpec (g : Graph) : Graph × Bool :=
  fuseGroups g (buildGadgetsWith gadgetKeySpec g)

/-! ## `full_simp` (simplify.rs lines 178-188) -/

/-- The body of `full_simp`'s loop: `m = clifford_simp(g) ||
fuse_gadgets(g)` with short-circuit `||`. -/
def fullRound (L : RuleLib) (F ifuel cfuel : Nat) (g : Graph) :
    Option (Graph × Bool) :=
  (cliffordSimp L F ifuel cfuel g).bind fun p =>
  if p.2 then some (p.1, true) else
  some (fuseGadgets p.1)

/-- `full_simp` (simplify.rs lines 178-188). -/
def fullSimp (L : RuleLib) (F ifuel cfuel fuel : Nat) (g : Graph) :
    Option (Graph × Bool) :=
  simpLoopO (fullRound L F ifuel cfuel) fuel g false

/-! ## Basic graph lemmas -/

theorem numVertices_xToZ (g : Graph) : numVertices (xToZ g) = numVertices g := rfl

theorem verts_addToPhase (g : Graph) (v : V) (q : ℚ) :
    (addToPhase g v q).verts = g.verts := rfl

theorem numVertices_removeVertex_le (g : Graph) (v : V) :
    numVertices (removeVertex g v) ≤ numVertices g :=
  List.length_filter_le _ _

theorem numVertices_removeVertex_lt (g : Graph) (v : V)
    (h : containsVertex g v = true) :
    numVertices (removeVertex g v) < numVertices g := by
  have hv : v ∈ g.verts := by
    simpa [containsVertex] using h
  refine List.length_filter_lt_length_iff_exists.mpr ?_
  exact ⟨v, hv, by simp⟩

theorem containsVertex_removeVertex (g : Graph) (u v : V) :
    containsVertex (removeVertex g u) v = (containsVertex g v && !(v == u)) := by
  simp only [containsVertex, removeVertex, List.contains]
  by_cases hvu : v = u
  · subst hvu
    simp [List.elem_eq_mem, List.mem_filter]
  · simp [List.elem_eq_mem, List.mem_filter, hvu]

theorem vertexType_xToZ (g : Graph) (v : V) :
    vertexType (xToZ g) v =
      if vertexType g v = VType.X then VType.Z else vertexType g v := by
  simp only [vertexType, xToZ, List.find?_map]
  cases hf : g.types.find? (fun p => p.1 == v) with
  | none => simp [Function.comp_def, hf]
  | some p =>
    have : (g.types.find? fun p => (p.1, if p.2 = VType.X then VType.Z else p.2).1 == v)
        = some p := by
      simpa [Function.comp_def] using hf
    simp only [Function.comp_def]
    rw [this]
    simp

theorem xToZ_idem (g : Graph) : xToZ (xToZ g) = xToZ g := by
  have htype : ∀ v, vertexType (xToZ g) v ≠ VType.X := by
    intro v
    rw [vertexType_xToZ]
    cases h : vertexType g v <;> simp
  show Graph.mk _ _ _ _ = Graph.mk _ _ _ _
  congr 1
  · -- types: converting twice is converting once
    show (g.types.map _).map _ = g.types.map _
    rw [List.map_map]
    refine List.map_congr_left ?_
    intro p _
    simp only [Function.comp_def]
    cases p.2 <;> simp
  · -- edges: after conversion there is no X endpoint, so nothing toggles
    show ((xToZ g).edges).map _ = (xToZ g).edges
    have : ∀ e ∈ (xToZ g).edges,
        ((fun e : V × V × EType =>
          (e.1, e.2.1,
            (if vertexType (xToZ g) e.1 == VType.X then
                (fun et => match et with | EType.N => EType.H | EType.H => EType.N)
              else id)
            ((if vertexType (xToZ g) e.2.1 == VType.X then
                (fun et => match et with | EType.N => EType.H | EType.H => EType.N)
              else id) e.2.2))) e) = e := by
      intro e _
      have h1 : (vertexType (xToZ g) e.1 == VType.X) = false := by
        simpa using htype e.1
      have h2 : (vertexType (xToZ g) e.2.1 == VType.X) = false := by
        simpa using htype e.2.1
      simp [h1, h2]
    calc ((xToZ g).edges).map _ = ((xToZ g).edges).map id := List.map_congr_left this
      _ = (xToZ g).edges := List.map_id _

/-! ## Round lemmas: a scan that reports no match left the graph alone,
a scan under a non-increasing rule does not increase the vertex count,
and a scan that matched under a strictly decreasing rule decreased it. -/

theorem vertexFold_true (check : Graph → V → Bool) (rule : Graph → V → Graph) :
    ∀ (l : List V) (p : Graph × Bool), p.2 = true →
      (l.foldl (vertexSimpStep check rule) p).2 = true := by
  intro l
  induction l with
  | nil => intro p hp; simpa using hp
  | cons v tl ih =>
    intro p hp
    simp only [List.foldl_cons]
    by_cases h : check p.1 v = true
    · exact ih _ (by simp [vertexSimpStep, h])
    · exact ih _ (by simp only [vertexSimpStep, h, Bool.false_eq_true, if_false]; exact hp)

theorem vertexFold_false (check : Graph → V → Bool) (rule : Graph → V → Graph) :
    ∀ (l : List V) (g : Graph),
      (l.foldl (vertexSimpStep check rule) (g, false)).2 = false →
      l.foldl (vertexSimpStep check rule) (g, false) = (g, false) := by
  intro l
  induction l with
  | nil => intro g _; rfl
  | cons v tl ih =>
    intro g hres
    simp only [List.foldl_cons] at hres ⊢
    by_cases h : check g v = true
    · exfalso
      have : (tl.foldl (vertexSimpStep check rule) (vertexSimpStep check rule (g, false) v)).2
          = true :=
        vertexFold_true check rule tl _ (by simp [vertexSimpStep, h])
      rw [this] at hres
      exact absurd hres (by simp)
    · have hstep : vertexSimpStep check rule (g, false) v = (g, false) := by
        simp [vertexSimpStep, h]
      rw [hstep] at hres ⊢
      exact ih g hres

theorem vertexSimpRound_false (check : Graph → V → Bool) (rule : Graph → V → Graph)
    (g : Graph) (h : (vertexSimpRound check rule g).2 = false) :
    vertexSimpRound check rule g = (g, false) :=
  vertexFold_false check rule g.verts g h

theorem vertexFold_mono (check : Graph → V → Bool) (rule : Graph → V → Graph)
    (Hm : ∀ h v, check h v = true → numVertices (rule h v) ≤ numVertices h) :
    ∀ (l : List V) (p : Graph × Bool),
      numVertices (l.foldl (vertexSimpStep check rule) p).1 ≤ numVertices p.1 := by
  intro l
  induction l with
  | nil => intro p; exact le_rfl
  | cons v tl ih =>
    intro p
    simp only [List.foldl_cons]
    by_cases h : check p.1 v = true
    · calc numVertices (tl.foldl _ (vertexSimpStep check rule p v)).1
          ≤ numVertices (vertexSimpStep check rule p v).1 := ih _
        _ ≤ numVertices p.1 := by simp only [vertexSimpStep, h, if_true]; exact Hm _ _ h
    · have : vertexSimpStep check rule p v = p := by simp [vertexSimpStep, h]
      rw [this]; exact ih p

theorem vertexFold_strict (check : Graph → V → Bool) (rule : Graph → V → Graph)
    (Hs : ∀ h v, check h v = true → numVertices (rule h v) < numVertices h) :
    ∀ (l : List V) (p : Graph × Bool),
      (l.foldl (vertexSimpStep check rule) p).2 = true →
      p.2 = true ∨
        numVertices (l.foldl (vertexSimpStep check rule) p).1 < numVertices p.1 := by
  have Hm : ∀ h v, check h v = true → numVertices (rule h v) ≤ numVertices h :=
    fun h v hc => le_of_lt (Hs h v hc)
  intro l
  induction l with
  | nil => intro p hp; exact Or.inl hp
  | cons v tl ih =>
    intro p hp
    simp only [List.foldl_cons] at hp ⊢
    by_cases h : check p.1 v = true
    · right
      have hstep : vertexSimpStep check rule p v = (rule p.1 v, true) := by
        simp [vertexSimpStep, h]
      rw [hstep] at hp ⊢
      calc numVertices (tl.foldl _ (rule p.1 v, true)).1
          ≤ numVertices (rule p.1 v) := vertexFold_mono check rule Hm tl _
        _ < numVertices p.1 := Hs _ _ h
    · have hstep : vertexSimpStep check rule p v = p := by simp [vertexSimpStep, h]
      rw [hstep] at hp ⊢
      exact ih p hp

theorem edgeFold_true (et : EType) (check : Graph → V → V → Bool)
    (rule : Graph → V → V → Graph) :
    ∀ (l : List (V × V × EType)) (p : Graph × Bool), p.2 = true →
      (l.foldl (edgeSimpStep et check rule) p).2 = true := by
  intro l
  induction l with
  | nil => intro p hp; simpa using hp
  | cons e tl ih =>
    intro p hp
    simp only [List.foldl_cons]
    by_cases h : (e.2.2 == et && containsVertex p.1 e.1 && containsVertex p.1 e.2.1 &&
        check p.1 e.1 e.2.1) = true
    · exact ih _ (by simp [edgeSimpStep, h])
    · exact ih _ (by simp only [edgeSimpStep, h, Bool.false_eq_true, if_false]; exact hp)

theorem edgeFold_false (et : EType) (check : Graph → V → V → Bool)
    (rule : Graph → V → V → Graph) :
    ∀ (l : List (V × V × EType)) (g : Graph),
      (l.foldl (edgeSimpStep et check rule) (g, false)).2 = false →
      l.foldl (edgeSimpStep et check rule) (g, false) = (g, false) := by
  intro l
  induction l with
  | nil => intro g _; rfl
  | cons e tl ih =>
    intro g hres
    simp only [List.foldl_cons] at hres ⊢
    by_cases h : (e.2.2 == et && containsVertex g e.1 && containsVertex g e.2.1 &&
        check g e.1 e.2.1) = true
    · exfalso
      have : (tl.foldl (edgeSimpStep et check rule) (edgeSimpStep et check rule (g, false) e)).2
          = true :=
        edgeFold_true et check rule tl _ (by simp [edgeSimpStep, h])
      rw [this] at hres
      exact absurd hres (by simp)
    · have hstep : edgeSimpStep et check rule (g, false) e = (g, false) := by
        simp [edgeSimpStep, h]
      rw [hstep] at hres ⊢
      exact ih g hres

theorem edgeSimpRound_false (et : EType) (check : Graph → V → V → Bool)
    (rule : Graph → V → V → Graph) (g : Graph)
    (h : (edgeSimpRound et check rule g).2 = false) :
    edgeSimpRound et check rule g = (g, false) :=
  edgeFold_false et check rule g.edges g h

theorem edgeFold_mono (et : EType) (check : Graph → V → V → Bool)
    (rule : Graph → V → V → Graph)
    (Hm : ∀ h s t, check h s t = true → numVertices (rule h s t) ≤ numVertices h) :
    ∀ (l : List (V × V × EType)) (p : Graph × Bool),
      numVertices (l.foldl (edgeSimpStep et check rule) p).1 ≤ numVertices p.1 := by
  intro l
  induction l with
  | nil => intro p; exact le_rfl
  | cons e tl ih =>
    intro p
    simp only [List.foldl_cons]
    by_cases h : (e.2.2 == et && containsVertex p.1 e.1 && containsVertex p.1 e.2.1 &&
        check p.1 e.1 e.2.1) = true
    · have hc : check p.1 e.1 e.2.1 = true := by
        simp only [Bool.and_eq_true] at h; exact h.2
      calc numVertices (tl.foldl _ (edgeSimpStep et check rule p e)).1
          ≤ numVertices (edgeSimpStep et check rule p e).1 := ih _
        _ ≤ numVertices p.1 := by
            simp only [edgeSimpStep, h, if_true]; exact Hm _ _ _ hc
    · have : edgeSimpStep et check rule p e = p := by simp [edgeSimpStep, h]
      rw [this]; exact ih p

theorem edgeFold_strict (et : EType) (check : Graph → V → V → Bool)
    (rule : Graph → V → V → Graph)
    (Hs : ∀ h s t, check h s t = true → numVertices (rule h s t) < numVertices h) :
    ∀ (l : List (V × V × EType)) (p : Graph × Bool),
      (l.foldl (edgeSimpStep et check rule) p).2 = true →
      p.2 = true ∨
        numVertices (l.foldl (edgeSimpStep et check rule) p).1 < numVertices p.1 := by
  have Hm : ∀ h s t, check h s t = true → numVertices (rule h s t) ≤ numVertices h :=
    fun h s t hc => le_of_lt (Hs h s t hc)
  intro l
  induction l with
  | nil => intro p hp; exact Or.inl hp
  | cons e tl ih =>
    intro p hp
    simp only [List.foldl_cons] at hp ⊢
    by_cases h : (e.2.2 == et && containsVertex p.1 e.1 && containsVertex p.1 e.2.1 &&
        check p.1 e.1 e.2.1) = true
    · right
      have hc : check p.1 e.1 e.2.1 = true := by
        simp only [Bool.and_eq_true] at h; exact h.2
      have hstep : edgeSimpStep et check rule p e = (rule p.1 e.1 e.2.1, true) := by
        simp [edgeSimpStep, h]
      rw [hstep] at hp ⊢
      calc numVertices (tl.foldl _ (rule p.1 e.1 e.2.1, true)).1
          ≤ numVertices (rule p.1 e.1 e.2.1) := edgeFold_mono et check rule Hm tl _
        _ < numVertices p.1 := Hs _ _ _ hc
    · have hstep : edgeSimpStep et check rule p e = p := by simp [edgeSimpStep, h]
      rw [hstep] at hp ⊢
      exact ih p hp

/-! ## Loop lemmas for the drivers' round iteration (`simpLoop`) -/

theorem simpLoop_true_stays (round : Graph → Graph × Bool) (fr : Bool) :
    ∀ (fuel : Nat) (g : Graph) (r : Graph × Bool),
      simpLoop round fr fuel g true = some r → r.2 = true := by
  intro fuel
  induction fuel with
  | zero => intro g r h; simp [simpLoop] at h
  | succ n ih =>
    intro g r h
    simp only [simpLoop] at h
    by_cases hb : (fr && decide (numVertices (round g).1 ≤ numVertices g)) = true
    · rw [if_pos hb] at h
      cases h; rfl
    · rw [if_neg hb] at h
      by_cases hm : (round g).2 = true
      · rw [if_pos hm] at h
        exact ih _ _ (by simpa using h)
      · rw [if_neg hm] at h
        cases h; rfl

theorem simpLoop_false_round (round : Graph → Graph × Bool) (fr : Bool) :
    ∀ (fuel : Nat) (g g' : Graph),
      simpLoop round fr fuel g false = some (g', false) →
      round g = (g', false) := by
  intro fuel
  induction fuel with
  | zero => intro g g' h; simp [simpLoop] at h
  | succ n ih =>
    intro g g' h
    simp only [simpLoop] at h
    by_cases hm : (round g).2 = true
    · by_cases hb : (fr && decide (numVertices (round g).1 ≤ numVertices g)) = true
      · rw [if_pos hb] at h
        rw [hm] at h
        simp at h
      · rw [if_neg hb, if_pos hm] at h
        rw [hm] at h
        have := simpLoop_true_stays round fr n (round g).1 (g', false) (by simpa using h)
        simp at this
    · have hm' : (round g).2 = false := by
        cases hxx : (round g).2
        · rfl
        · exact absurd hxx hm
      have hval : round g = ((round g).1, false) := by
        rw [← hm']
      by_cases hb : (fr && decide (numVertices (round g).1 ≤ numVertices g)) = true
      · rw [if_pos hb] at h
        simp only [Option.some.injEq, Prod.mk.injEq] at h
        rw [hval, h.1]
      · rw [if_neg hb, if_neg hm] at h
        simp only [Option.some.injEq, Prod.mk.injEq] at h
        rw [hval, h.1]

theorem simpLoop_rerun (round : Graph → Graph × Bool) (fr : Bool) (g : Graph)
    (h : round g = (g, false)) :
    ∀ (fuel : Nat) (gm : Bool), simpLoop round fr (fuel + 1) g gm = some (g, gm) := by
  intro fuel gm
  simp only [simpLoop, h]
  by_cases hb : (fr && decide (numVertices g ≤ numVertices g)) = true
  · simp [hb]
  · simp [hb]

theorem simpLoop_mono (round : Graph → Graph × Bool) (fr : Bool)
    (Hm : ∀ h, numVertices (round h).1 ≤ numVertices h) :
    ∀ (fuel : Nat) (g : Graph) (gm : Bool) (r : Graph × Bool),
      simpLoop round fr fuel g gm = some r → numVertices r.1 ≤ numVertices g := by
  intro fuel
  induction fuel with
  | zero => intro g gm r h; simp [simpLoop] at h
  | succ n ih =>
    intro g gm r h
    simp only [simpLoop] at h
    by_cases hb : (fr && decide (numVertices (round g).1 ≤ numVertices g)) = true
    · rw [if_pos hb] at h
      cases h
      exact Hm g
    · rw [if_neg hb] at h
      by_cases hm : (round g).2 = true
      · rw [if_pos hm] at h
        exact le_trans (ih _ _ _ h) (Hm g)
      · rw [if_neg hm] at h
        cases h
        exact Hm g

theorem simpLoop_result_true_lt (round : Graph → Graph × Bool) (fr : Bool)
    (Hm : ∀ h, numVertices (round h).1 ≤ numVertices h)
    (Hs : ∀ h, (round h).2 = true → numVertices (round h).1 < numVertices h) :
    ∀ (fuel : Nat) (g g' : Graph),
      simpLoop round fr fuel g false = some (g', true) →
      numVertices g' < numVertices g := by
  intro fuel
  induction fuel with
  | zero => intro g g' h; simp [simpLoop] at h
  | succ n ih =>
    intro g g' h
    simp only [simpLoop] at h
    by_cases hm : (round g).2 = true
    · have hlt : numVertices (round g).1 < numVertices g := Hs g hm
      by_cases hb : (fr && decide (numVertices (round g).1 ≤ numVertices g)) = true
      · rw [if_pos hb] at h
        simp only [Option.some.injEq, Prod.mk.injEq] at h
        rw [← h.1]
        exact hlt
      · rw [if_neg hb, if_pos hm] at h
        rw [hm] at h
        exact lt_of_le_of_lt
          (simpLoop_mono round fr Hm n (round g).1 true (g', true) (by simpa using h)) hlt
    · have hm' : (round g).2 = false := by
        cases hxx : (round g).2
        · rfl
        · exact absurd hxx hm
      by_cases hb : (fr && decide (numVertices (round g).1 ≤ numVertices g)) = true
      · rw [if_pos hb] at h
        simp only [hm', Option.some.injEq, Prod.mk.injEq] at h
        simp at h
      · rw [if_neg hb, if_neg hm] at h
        simp only [hm', Option.some.injEq, Prod.mk.injEq] at h
        simp at h

theorem simpLoop_isSome (round : Graph → Graph × Bool) (fr : Bool)
    (Hm : ∀ h, numVertices (round h).1 ≤ numVertices h)
    (Hs : ∀ h, (round h).2 = true → numVertices (round h).1 < numVertices h) :
    ∀ (fuel : Nat) (g : Graph) (gm : Bool), numVertices g < fuel →
      (simpLoop round fr fuel g gm).isSome = true := by
  intro fuel
  induction fuel with
  | zero => intro g gm h; omega
  | succ n ih =>
    intro g gm hlt
    simp only [simpLoop]
    by_cases hb : (fr && decide (numVertices (round g).1 ≤ numVertices g)) = true
    · simp [hb]
    · rw [if_neg hb]
      by_cases hm : (round g).2 = true
      · rw [if_pos hm]
        exact ih _ _ (by
          have := Hs g hm
          omega)
      · simp [hm]

theorem simpLoop_force_one (round : Graph → Graph × Bool)
    (Hm : ∀ h, numVertices (round h).1 ≤ numVertices h) :
    ∀ (fuel : Nat) (g : Graph) (gm : Bool),
      simpLoop round true (fuel + 1) g gm = some ((round g).1, gm || (round g).2) := by
  intro fuel g gm
  simp only [simpLoop]
  have : (true && decide (numVertices (round g).1 ≤ numVertices g)) = true := by
    simp [Hm g]
  rw [if_pos this]

/-! ## Loop lemmas for the composite strategies (`simpLoopO`) -/

theorem simpLoopO_true_stays (round : Graph → Option (Graph × Bool)) :
    ∀ (fuel : Nat) (g : Graph) (r : Graph × Bool),
      simpLoopO round fuel g true = some r → r.2 = true := by
  intro fuel
  induction fuel with
  | zero => intro g r h; simp [simpLoopO] at h
  | succ n ih =>
    intro g r h
    simp only [simpLoopO] at h
    cases hr : round g with
    | none => rw [hr] at h; simp at h
    | some p =>
      rw [hr] at h
      simp only [Option.some_bind] at h
      by_cases hp : p.2 = true
      · rw [if_pos hp] at h
        exact ih _ _ h
      · rw [if_neg hp] at h
        simp only [Option.some.injEq] at h
        rw [← h]

theorem simpLoopO_false_round (round : Graph → Option (Graph × Bool)) :
    ∀ (fuel : Nat) (g g' : Graph),
      simpLoopO round fuel g false = some (g', false) →
      round g = some (g', false) := by
  intro fuel
  induction fuel with
  | zero => intro g g' h; simp [simpLoopO] at h
  | succ n ih =>
    intro g g' h
    simp only [simpLoopO] at h
    cases hr : round g with
    | none => rw [hr] at h; simp at h
    | some p =>
      rw [hr] at h
      simp only [Option.some_bind] at h
      by_cases hp : p.2 = true
      · rw [if_pos hp] at h
        have := simpLoopO_true_stays round n p.1 (g', false) h
        simp at this
      · rw [if_neg hp] at h
        simp only [Option.some.injEq, Prod.mk.injEq] at h
        have hp' : p.2 = false := by
          cases hxx : p.2
          · rfl
          · exact absurd hxx hp
        have hpe : p = (g', false) := by
          cases p
          simp_all
        rw [hpe]

theorem simpLoopO_false_eq (round : Graph → Option (Graph × Bool))
    (Hr : ∀ h r', round h = some r' → r'.2 = false → r'.1 = h) :
    ∀ (fuel : Nat) (g g' : Graph),
      simpLoopO round fuel g false = some (g', false) → g' = g := by
  intro fuel g g' h
  have hround := simpLoopO_false_round round fuel g g' h
  exact Hr g (g', false) hround rfl

theorem simpLoopO_final (round : Graph → Option (Graph × Bool))
    (Hidem : ∀ h r', round h = some r' → r'.2 = false →
      round r'.1 = some (r'.1, false)) :
    ∀ (fuel : Nat) (g : Graph) (gm : Bool) (g' : Graph) (b : Bool),
      simpLoopO round fuel g gm = some (g', b) →
      round g' = some (g', false) := by
  intro fuel
  induction fuel with
  | zero => intro g gm g' b h; simp [simpLoopO] at h
  | succ n ih =>
    intro g gm g' b h
    simp only [simpLoopO] at h
    cases hr : round g with
    | none => rw [hr] at h; simp at h
    | some p =>
      rw [hr] at h
      simp only [Option.some_bind] at h
      by_cases hp : p.2 = true
      · rw [if_pos hp] at h
        exact ih _ _ _ _ h
      · rw [if_neg hp] at h
        simp only [Option.some.injEq, Prod.mk.injEq] at h
        have hp' : p.2 = false := by
          cases hxx : p.2
          · rfl
          · exact absurd hxx hp
        rw [← h.1]
        exact Hidem g p hr hp'

theorem simpLoopO_mono (round : Graph → Option (Graph × Bool))
    (Hm : ∀ h r', round h = some r' → numVertices r'.1 ≤ numVertices h) :
    ∀ (fuel : Nat) (g : Graph) (gm : Bool) (r : Graph × Bool),
      simpLoopO round fuel g gm = some r → numVertices r.1 ≤ numVertices g := by
  intro fuel
  induction fuel with
  | zero => intro g gm r h; simp [simpLoopO] at h
  | succ n ih =>
    intro g gm r h
    simp only [simpLoopO] at h
    cases hr : round g with
    | none => rw [hr] at h; simp at h
    | some p =>
      rw [hr] at h
      simp only [Option.some_bind] at h
      by_cases hp : p.2 = true
      · rw [if_pos hp] at h
        exact le_trans (ih _ _ _ h) (Hm g p hr)
      · rw [if_neg hp] at h
        simp only [Option.some.injEq] at h
        rw [← h]
        exact Hm g p hr

theorem simpLoopO_result_true_lt (round : Graph → Option (Graph × Bool)) (N : Nat)
    (HN : ∀ h r', numVertices h ≤ N → round h = some r' →
      numVertices r'.1 ≤ numVertices h ∧
        (r'.2 = true → numVertices r'.1 < numVertices h)) :
    ∀ (fuel : Nat) (g : Graph) (g' : Graph), numVertices g ≤ N →
      simpLoopO round fuel g false = some (g', true) →
      numVertices g' < numVertices g := by
  intro fuel
  induction fuel with
  | zero => intro g g' _ h; simp [simpLoopO] at h
  | succ n ih =>
    intro g g' hgN h
    simp only [simpLoopO] at h
    cases hr : round g with
    | none => rw [hr] at h; simp at h
    | some p =>
      rw [hr] at h
      simp only [Option.some_bind] at h
      by_cases hp : p.2 = true
      · rw [if_pos hp] at h
        have hlt : numVertices p.1 < numVertices g := (HN g p hgN hr).2 hp
        have hmono : ∀ (f : Nat) (s : Graph) (gm : Bool) (r : Graph × Bool),
            numVertices s ≤ N → simpLoopO round f s gm = some r →
            numVertices r.1 ≤ numVertices s := by
          intro f
          induction f with
          | zero => intro s gm r _ hh; simp [simpLoopO] at hh
          | succ m ihm =>
            intro s gm r hsN hh
            simp only [simpLoopO] at hh
            cases hs : round s with
            | none => rw [hs] at hh; simp at hh
            | some q =>
              rw [hs] at hh
              simp only [Option.some_bind] at hh
              by_cases hq : q.2 = true
              · rw [if_pos hq] at hh
                exact le_trans
                  (ihm q.1 true r (le_trans (HN s q hsN hs).1 hsN) hh)
                  (HN s q hsN hs).1
              · rw [if_neg hq] at hh
                simp only [Option.some.injEq] at hh
                rw [← hh]
                exact (HN s q hsN hs).1
        have := hmono n p.1 true (g', true) (le_trans (le_of_lt hlt) hgN) h
        exact lt_of_le_of_lt this hlt
      · rw [if_neg hp] at h
        simp only [Option.some.injEq, Prod.mk.injEq] at h
        exact absurd h.2 (by simp)

theorem simpLoopO_isSome (round : Graph → Option (Graph × Bool)) (N : Nat)
    (HN : ∀ h, numVertices h ≤ N → ∃ r', round h = some r' ∧
      numVertices r'.1 ≤ numVertices h ∧
        (r'.2 = true → numVertices r'.1 < numVertices h)) :
    ∀ (fuel : Nat) (g : Graph) (gm : Bool), numVertices g ≤ N →
      numVertices g < fuel → (simpLoopO round fuel g gm).isSome = true := by
  intro fuel
  induction fuel with
  | zero => intro g gm _ h; omega
  | succ n ih =>
    intro g gm hgN hlt
    simp only [simpLoopO]
    obtain ⟨r', hr', hmono, hstrict⟩ := HN g hgN
    rw [hr']
    simp only [Option.some_bind]
    by_cases hp : r'.2 = true
    · rw [if_pos hp]
      have h1 : numVertices r'.1 < numVertices g := hstrict hp
      exact ih r'.1 true (by omega) (by omega)
    · rw [if_neg hp]
      rfl

/-! ## Driver corollaries: a driver call that reports no match mutated
nothing, and an immediately repeated call again reports no match. -/

theorem vertexSimp_false (check : Graph → V → Bool) (rule : Graph → V → Graph)
    (fr : Bool) (fuel : Nat) (g g' : Graph)
    (h : vertexSimp check rule fr fuel g = some (g', false)) :
    g' = g ∧ vertexSimpRound check rule g = (g, false) := by
  have hround := simpLoop_false_round (vertexSimpRound check rule) fr fuel g g' h
  have hfix : vertexSimpRound check rule g = (g, false) :=
    vertexSimpRound_false check rule g (by rw [hround])
  refine ⟨?_, hfix⟩
  rw [hfix] at hround
  exact (Prod.mk.injEq _ _ _ _ ▸ hround).1.symm

theorem vertexSimp_rerun (check : Graph → V → Bool) (rule : Graph → V → Graph)
    (fr : Bool) (fuel : Nat) (g : Graph)
    (h : vertexSimpRound check rule g = (g, false)) :
    vertexSimp check rule fr (fuel + 1) g = some (g, false) :=
  simpLoop_rerun (vertexSimpRound check rule) fr g h fuel false

theorem edgeSimp_false (et : EType) (check : Graph → V → V → Bool)
    (rule : Graph → V → V → Graph) (fr : Bool) (fuel : Nat) (g g' : Graph)
    (h : edgeSimp et check rule fr fuel g = some (g', false)) :
    g' = g ∧ edgeSimpRound et check rule g = (g, false) := by
  have hround := simpLoop_false_round (edgeSimpRound et check rule) fr fuel g g' h
  have hfix : edgeSimpRound et check rule g = (g, false) :=
    edgeSimpRound_false et check rule g (by rw [hround])
  refine ⟨?_, hfix⟩
  rw [hfix] at hround
  exact (Prod.mk.injEq _ _ _ _ ▸ hround).1.symm

theorem edgeSimp_rerun (et : EType) (check : Graph → V → V → Bool)
    (rule : Graph → V → V → Graph) (fr : Bool) (fuel : Nat) (g : Graph)
    (h : edgeSimpRound et check rule g = (g, false)) :
    edgeSimp et check rule fr (fuel + 1) g = some (g, false) :=
  simpLoop_rerun (edgeSimpRound et check rule) fr g h fuel false

/-! ## Structure of the four-pass round and the composite rounds -/

theorem prodBool_eta (p : Graph × Bool) (h : ¬p.2 = true) : p = (p.1, false) := by
  cases p
  simp_all

theorem prodBool_eta_true (p : Graph × Bool) (h : p.2 = true) : p = (p.1, true) := by
  cases p
  simp_all

theorem fourPass_false_parts (L : RuleLib) (F : Nat) (g g' : Graph)
    (h : fourPassRound L F g = some (g', false)) :
    g' = g ∧ idSimp L F g = some (g, false) ∧ spiderSimp L F g = some (g, false) ∧
      pivotSimp L F g = some (g, false) ∧ localCompSimp L F g = some (g, false) := by
  simp only [fourPassRound] at h
  cases h1 : idSimp L F g with
  | none => rw [h1] at h; simp at h
  | some p1 =>
    rw [h1] at h
    simp only [Option.some_bind] at h
    by_cases b1 : p1.2 = true
    · rw [if_pos b1] at h; simp at h
    · rw [if_neg b1] at h
      rw [prodBool_eta p1 b1] at h1
      have hq1 : p1.1 = g :=
        (vertexSimp_false L.checkRemoveId L.removeIdUnchecked false F g p1.1 h1).1
      rw [hq1] at h1 h
      cases h2 : spiderSimp L F g with
      | none => rw [h2] at h; simp at h
      | some p2 =>
        rw [h2] at h
        simp only [Option.some_bind] at h
        by_cases b2 : p2.2 = true
        · rw [if_pos b2] at h; simp at h
        · rw [if_neg b2] at h
          rw [prodBool_eta p2 b2] at h2
          have hq2 : p2.1 = g :=
            (edgeSimp_false EType.N L.checkSpiderFusion L.spiderFusionUnchecked
              false F g p2.1 h2).1
          rw [hq2] at h2 h
          cases h3 : pivotSimp L F g with
          | none => rw [h3] at h; simp at h
          | some p3 =>
            rw [h3] at h
            simp only [Option.some_bind] at h
            by_cases b3 : p3.2 = true
            · rw [if_pos b3] at h; simp at h
            · rw [if_neg b3] at h
              rw [prodBool_eta p3 b3] at h3
              have hq3 : p3.1 = g :=
                (edgeSimp_false EType.H L.checkPivot L.pivotUnchecked false F g p3.1 h3).1
              rw [hq3] at h3 h
              cases h4 : localCompSimp L F g with
              | none => rw [h4] at h; simp at h
              | some p4 =>
                rw [h4] at h
                simp only [Option.some_bind, Option.some.injEq, Prod.mk.injEq] at h
                have hb4 : p4.2 = false := h.2
                rw [prodBool_eta p4 (by simp [hb4])] at h4
                have hq4 : p4.1 = g :=
                  (vertexSimp_false L.checkLocalComp L.localCompUnchecked
                    false F g p4.1 h4).1
                rw [hq4] at h4
                refine ⟨by rw [← h.1, hq4], ?_, ?_, ?_, ?_⟩
                · rw [prodBool_eta p1 b1, hq1]
                · rw [prodBool_eta p2 b2, hq2]
                · rw [prodBool_eta p3 b3, hq3]
                · rw [prodBool_eta p4 (by simp [hb4]), hq4]

theorem fourPass_idem (L : RuleLib) (F : Nat) (g : Graph) (r : Graph × Bool)
    (h : fourPassRound L F g = some r) (hb : r.2 = false) :
    fourPassRound L F r.1 = some (r.1, false) := by
  have hr : fourPassRound L F g = some (r.1, false) := by rw [← hb, h]
  have := fourPass_false_parts L F g r.1 hr
  rw [this.1]
  rw [this.1] at hr
  exact hr

theorem interior_false_idem (L : RuleLib) (F fuel : Nat) (g gi : Graph)
    (h : interiorCliffordSimp L F fuel g = some (gi, false)) :
    interiorCliffordSimp L F fuel gi = some (gi, false) := by
  simp only [interiorCliffordSimp] at h
  cases hsp : spiderSimp L F g with
  | none => rw [hsp] at h; simp at h
  | some sp =>
    rw [hsp] at h
    simp only [Option.some_bind] at h
    have hround : fourPassRound L F (xToZ sp.1) = some (gi, false) :=
      simpLoopO_false_round (fourPassRound L F) fuel (xToZ sp.1) gi h
    have hparts := fourPass_false_parts L F (xToZ sp.1) gi hround
    have hgi : gi = xToZ sp.1 := hparts.1
    obtain ⟨fl, hfl⟩ : ∃ fl, fuel = fl + 1 := by
      cases fuel with
      | zero => simp [simpLoopO] at h
      | succ n => exact ⟨n, rfl⟩
    simp only [interiorCliffordSimp]
    have hspgi : spiderSimp L F gi = some (gi, false) := by
      rw [hgi]; exact hgi ▸ hparts.2.2.1
    rw [hspgi]
    simp only [Option.some_bind]
    have hxz : xToZ gi = gi := by
      rw [hgi, xToZ_idem]
    rw [hxz, hfl]
    simp only [simpLoopO]
    have hroundgi : fourPassRound L F gi = some (gi, false) := by
      rw [hgi]; exact hgi ▸ hround
    rw [hroundgi]
    simp

theorem clifford_round_idem (L : RuleLib) (F ifuel : Nat) (g g1 : Graph)
    (h : cliffordRound L F ifuel g = some (g1, false)) :
    cliffordRound L F ifuel g1 = some (g1, false) := by
  simp only [cliffordRound] at h
  cases hint : interiorCliffordSimp L F ifuel g with
  | none => rw [hint] at h; simp at h
  | some p =>
    rw [hint] at h
    simp only [Option.some_bind] at h
    by_cases hp : p.2 = true
    · rw [if_pos hp] at h; simp at h
    · rw [if_neg hp] at h
      have hp' : p.2 = false := by simpa using hp
      cases hgp : genPivotSimp L F p.1 with
      | none => rw [hgp] at h; simp at h
      | some q =>
        rw [hgp] at h
        simp only [Option.some_bind, Option.some.injEq, Prod.mk.injEq] at h
        have hq1 : q.1 = g1 := h.1
        have hq2 : q.2 = false := h.2
        have hgp' : genPivotSimp L F p.1 = some (q.1, false) := by
          rw [hgp, prodBool_eta q (by simp [hq2])]
        have hqp : q.1 = p.1 :=
          (edgeSimp_false EType.H L.checkGenPivotReduce L.genPivotUnchecked false F
            p.1 q.1 hgp').1
        have hpg1 : p.1 = g1 := by rw [← hqp, hq1]
        have hint1 : interiorCliffordSimp L F ifuel g = some (g1, false) := by
          rw [hint]
          have : p = (g1, false) := by cases p; simp_all
          rw [this]
        have hidem := interior_false_idem L F ifuel g g1 hint1
        have hgp1 : genPivotSimp L F g1 = some (g1, false) := by
          rw [← hpg1]
          rw [hgp]
          have : q = (p.1, false) := by cases q; simp_all
          rw [this]
        simp only [cliffordRound, hidem, Option.some_bind]
        rw [hgp1]
        simp

/-! ## Termination machinery: every rule of the library strictly shrinks
the vertex count at each match. -/

/-- Every rewrite of the library, applied at a matching site, strictly
decreases the vertex count. -/
def StrictLib (L : RuleLib) : Prop :=
  (∀ h v, L.checkRemoveId h v = true →
    numVertices (L.removeIdUnchecked h v) < numVertices h) ∧
  (∀ h v, L.checkLocalComp h v = true →
    numVertices (L.localCompUnchecked h v) < numVertices h) ∧
  (∀ h s t, L.checkSpiderFusion h s t = true →
    numVertices (L.spiderFusionUnchecked h s t) < numVertices h) ∧
  (∀ h s t, L.checkPivot h s t = true →
    numVertices (L.pivotUnchecked h s t) < numVertices h) ∧
  (∀ h s t, L.checkGenPivotReduce h s t = true →
    numVertices (L.genPivotUnchecked h s t) < numVertices h)

/-- A pass behaves well at `g`: it yields a result, shrinks strictly when
it matched, and left the graph alone when it did not. -/
def GoodIdPass (f : Graph → Option (Graph × Bool)) (g : Graph) : Prop :=
  ∃ r, f g = some r ∧ (r.2 = true → numVertices r.1 < numVertices g) ∧
    (r.2 = false → r.1 = g)

theorem vertexSimp_roundHyps (check : Graph → V → Bool) (rule : Graph → V → Graph)
    (Hs : ∀ h v, check h v = true → numVertices (rule h v) < numVertices h) :
    (∀ h, numVertices (vertexSimpRound check rule h).1 ≤ numVertices h) ∧
    (∀ h, (vertexSimpRound check rule h).2 = true →
      numVertices (vertexSimpRound check rule h).1 < numVertices h) := by
  constructor
  · intro h
    exact vertexFold_mono check rule (fun a b hc => le_of_lt (Hs a b hc)) h.verts (h, false)
  · intro h hm
    rcases vertexFold_strict check rule Hs h.verts (h, false) hm with hcase | hcase
    · simp at hcase
    · exact hcase

theorem edgeSimp_roundHyps (et : EType) (check : Graph → V → V → Bool)
    (rule : Graph → V → V → Graph)
    (Hs : ∀ h s t, check h s t = true → numVertices (rule h s t) < numVertices h) :
    (∀ h, numVertices (edgeSimpRound et check rule h).1 ≤ numVertices h) ∧
    (∀ h, (edgeSimpRound et check rule h).2 = true →
      numVertices (edgeSimpRound et check rule h).1 < numVertices h) := by
  constructor
  · intro h
    exact edgeFold_mono et check rule (fun a b c hc => le_of_lt (Hs a b c hc)) h.edges (h, false)
  · intro h hm
    rcases edgeFold_strict et check rule Hs h.edges (h, false) hm with hcase | hcase
    · simp at hcase
    · exact hcase

theorem vertexSimp_good (check : Graph → V → Bool) (rule : Graph → V → Graph)
    (Hs : ∀ h v, check h v = true → numVertices (rule h v) < numVertices h)
    (fr : Bool) (fuel : Nat) (g : Graph) (hf : numVertices g < fuel) :
    GoodIdPass (vertexSimp check rule fr fuel) g := by
  obtain ⟨Hm, Hstrict⟩ := vertexSimp_roundHyps check rule Hs
  have hsome := simpLoop_isSome (vertexSimpRound check rule) fr Hm Hstrict fuel g false hf
  obtain ⟨r, hr⟩ := Option.isSome_iff_exists.mp hsome
  refine ⟨r, hr, ?_, ?_⟩
  · intro hb
    have : vertexSimp check rule fr fuel g = some (r.1, true) := by
      show simpLoop (vertexSimpRound check rule) fr fuel g false = some (r.1, true)
      rw [hr, prodBool_eta_true r hb]
    exact simpLoop_result_true_lt (vertexSimpRound check rule) fr Hm Hstrict fuel g r.1 this
  · intro hb
    have : vertexSimp check rule fr fuel g = some (r.1, false) := by
      show simpLoop (vertexSimpRound check rule) fr fuel g false = some (r.1, false)
      rw [hr, prodBool_eta r (by simp [hb])]
    exact (vertexSimp_false check rule fr fuel g r.1 this).1

theorem edgeSimp_good (et : EType) (check : Graph → V → V → Bool)
    (rule : Graph → V → V → Graph)
    (Hs : ∀ h s t, check h s t = true → numVertices (rule h s t) < numVertices h)
    (fr : Bool) (fuel : Nat) (g : Graph) (hf : numVertices g < fuel) :
    GoodIdPass (edgeSimp et check rule fr fuel) g := by
  obtain ⟨Hm, Hstrict⟩ := edgeSimp_roundHyps et check rule Hs
  have hsome := simpLoop_isSome (edgeSimpRound et check rule) fr Hm Hstrict fuel g false hf
  obtain ⟨r, hr⟩ := Option.isSome_iff_exists.mp hsome
  refine ⟨r, hr, ?_, ?_⟩
  · intro hb
    have : edgeSimp et check rule fr fuel g = some (r.1, true) := by
      show simpLoop (edgeSimpRound et check rule) fr fuel g false = some (r.1, true)
      rw [hr, prodBool_eta_true r hb]
    exact simpLoop_result_true_lt (edgeSimpRound et check rule) fr Hm Hstrict fuel g r.1 this
  · intro hb
    have : edgeSimp et check rule fr fuel g = some (r.1, false) := by
      show simpLoop (edgeSimpRound et check rule) fr fuel g false = some (r.1, false)
      rw [hr, prodBool_eta r (by simp [hb])]
    exact (edgeSimp_false et check rule fr fuel g r.1 this).1

/-- A pass behaves well at `g` up to monotonicity: it yields a result,
never grows the graph, and shrinks strictly when it matched. -/
def GoodPass (f : Graph → Option (Graph × Bool)) (g : Graph) : Prop :=
  ∃ r, f g = some r ∧ numVertices r.1 ≤ numVertices g ∧
    (r.2 = true → numVertices r.1 < numVertices g)

theorem goodIdPass_elim (f : Graph → Option (Graph × Bool)) (g : Graph)
    (r' : Graph × Bool) (hg : GoodIdPass f g) (heq : f g = some r') :
    (r'.2 = true → numVertices r'.1 < numVertices g) ∧
      (r'.2 = false → r'.1 = g) := by
  obtain ⟨r, hr, hs, hi⟩ := hg
  have : r' = r := by
    rw [heq] at hr
    exact Option.some.injEq _ _ ▸ hr
  rw [this]
  exact ⟨hs, hi⟩

theorem goodPass_elim (f : Graph → Option (Graph × Bool)) (g : Graph)
    (r' : Graph × Bool) (hg : GoodPass f g) (heq : f g = some r') :
    numVertices r'.1 ≤ numVertices g ∧
      (r'.2 = true → numVertices r'.1 < numVertices g) := by
  obtain ⟨r, hr, hm, hs⟩ := hg
  have : r' = r := by
    rw [heq] at hr
    exact Option.some.injEq _ _ ▸ hr
  rw [this]
  exact ⟨hm, hs⟩

theorem goodIdPass_mono (f : Graph → Option (Graph × Bool)) (g : Graph)
    (r : Graph × Bool) (hg : GoodIdPass f g) (heq : f g = some r) :
    numVertices r.1 ≤ numVertices g := by
  obtain ⟨hs, hi⟩ := goodIdPass_elim f g r hg heq
  cases hb : r.2
  · rw [hi hb]
  · exact le_of_lt (hs hb)

theorem simpLoopO_mono_bounded (round : Graph → Option (Graph × Bool)) (N : Nat)
    (HN : ∀ h r', numVertices h ≤ N → round h = some r' →
      numVertices r'.1 ≤ numVertices h) :
    ∀ (fuel : Nat) (g : Graph) (gm : Bool) (r : Graph × Bool), numVertices g ≤ N →
      simpLoopO round fuel g gm = some r → numVertices r.1 ≤ numVertices g := by
  intro fuel
  induction fuel with
  | zero => intro g gm r _ h; simp [simpLoopO] at h
  | succ n ih =>
    intro g gm r hgN h
    simp only [simpLoopO] at h
    cases hr : round g with
    | none => rw [hr] at h; simp at h
    | some p =>
      rw [hr] at h
      simp only [Option.some_bind] at h
      by_cases hp : p.2 = true
      · rw [if_pos hp] at h
        have hple : numVertices p.1 ≤ numVertices g := HN g p hgN hr
        exact le_trans (ih p.1 true r (le_trans hple hgN) h) hple
      · rw [if_neg hp] at h
        simp only [Option.some.injEq] at h
        rw [← h]
        exact HN g p hgN hr

theorem fourPass_good (L : RuleLib) (HL : StrictLib L) (F : Nat) (g : Graph)
    (hf : numVertices g < F) : GoodIdPass (fourPassRound L F) g := by
  obtain ⟨Hid, Hlc, Hsp, Hpv, _⟩ := HL
  obtain ⟨r1, hr1, hs1, hi1⟩ :=
    vertexSimp_good L.checkRemoveId L.removeIdUnchecked Hid false F g hf
  have hr1' : idSimp L F g = some r1 := hr1
  by_cases b1 : r1.2 = true
  · refine ⟨(r1.1, true), ?_, fun _ => hs1 b1, by simp⟩
    simp [fourPassRound, hr1', b1]
  · have hg1 : r1.1 = g := hi1 (by simpa using b1)
    have hid : idSimp L F g = some (g, false) := by
      rw [hr1', prodBool_eta r1 b1, hg1]
    obtain ⟨r2, hr2, hs2, hi2⟩ :=
      edgeSimp_good EType.N L.checkSpiderFusion L.spiderFusionUnchecked Hsp false F g hf
    have hr2' : spiderSimp L F g = some r2 := hr2
    by_cases b2 : r2.2 = true
    · refine ⟨(r2.1, true), ?_, fun _ => hs2 b2, by simp⟩
      simp [fourPassRound, hid, hr2', b2]
    · have hg2 : r2.1 = g := hi2 (by simpa using b2)
      have hsp2 : spiderSimp L F g = some (g, false) := by
        rw [hr2', prodBool_eta r2 b2, hg2]
      obtain ⟨r3, hr3, hs3, hi3⟩ :=
        edgeSimp_good EType.H L.checkPivot L.pivotUnchecked Hpv false F g hf
      have hr3' : pivotSimp L F g = some r3 := hr3
      by_cases b3 : r3.2 = true
      · refine ⟨(r3.1, true), ?_, fun _ => hs3 b3, by simp⟩
        simp [fourPassRound, hid, hsp2, hr3', b3]
      · have hg3 : r3.1 = g := hi3 (by simpa using b3)
        have hpv3 : pivotSimp L F g = some (g, false) := by
          rw [hr3', prodBool_eta r3 b3, hg3]
        obtain ⟨r4, hr4, hs4, hi4⟩ :=
          vertexSimp_good L.checkLocalComp L.localCompUnchecked Hlc false F g hf
        have hr4' : localCompSimp L F g = some r4 := hr4
        refine ⟨(r4.1, r4.2), ?_, fun hb => hs4 hb, fun hb => hi4 hb⟩
        simp [fourPassRound, hid, hsp2, hpv3, hr4']

/-! ## Gadget-fusion lemmas: vertex-count behaviour and grouping facts -/

theorem numVertices_addToPhase (g : Graph) (v : V) (q : ℚ) :
    numVertices (addToPhase g v q) = numVertices g := rfl

theorem fuseStep_mono (acc : Graph × ℚ) (pr : V × V) :
    numVertices (fuseStep acc pr).1 ≤ numVertices acc.1 :=
  le_trans (numVertices_removeVertex_le _ _) (numVertices_removeVertex_le _ _)

theorem fuseInner_mono : ∀ (l : List (V × V)) (acc : Graph × ℚ),
    numVertices (l.foldl fuseStep acc).1 ≤ numVertices acc.1 := by
  intro l
  induction l with
  | nil => intro acc; exact le_rfl
  | cons pr tl ih =>
    intro acc
    exact le_trans (ih (fuseStep acc pr)) (fuseStep_mono acc pr)

theorem fuseGroupStep_mono (acc : Graph × Bool) (kv : List V × List (V × V)) :
    numVertices (fuseGroupStep acc kv).1 ≤ numVertices acc.1 := by
  simp only [fuseGroupStep]
  cases kv.2 with
  | nil => exact le_rfl
  | cons p0 tl =>
    cases tl with
    | nil => exact le_rfl
    | cons p1 rest =>
      simp only
      rw [numVertices_addToPhase]
      exact fuseInner_mono (p1 :: rest) _

theorem fuseGroupsFold_mono : ∀ (groups : List (List V × List (V × V)))
    (acc : Graph × Bool),
    numVertices (groups.foldl fuseGroupStep acc).1 ≤ numVertices acc.1 := by
  intro groups
  induction groups with
  | nil => intro acc; exact le_rfl
  | cons kv tl ih =>
    intro acc
    exact le_trans (ih (fuseGroupStep acc kv)) (fuseGroupStep_mono acc kv)

theorem fuseGadgets_mono (g : Graph) :
    numVertices (fuseGadgets g).1 ≤ numVertices g :=
  fuseGroupsFold_mono (buildGadgets g) (g, false)

theorem removeVertex_pair_strict (h : Graph) (a b : V)
    (hb : containsVertex h b = true) :
    numVertices (removeVertex (removeVertex h a) b) < numVertices h := by
  by_cases hab : b = a
  · subst hab
    exact lt_of_le_of_lt (numVertices_removeVertex_le _ _)
      (numVertices_removeVertex_lt h b hb)
  · have hb' : containsVertex (removeVertex h a) b = true := by
      rw [containsVertex_removeVertex]
      simp [hb, hab]
    exact lt_of_lt_of_le (numVertices_removeVertex_lt _ b hb')
      (numVertices_removeVertex_le h a)

theorem fuseGroupsFold_strict :
    ∀ (groups : List (List V × List (V × V))) (h : Graph),
      (∀ kv ∈ groups, ∀ q ∈ kv.2, containsVertex h q.2 = true) →
      (groups.foldl fuseGroupStep (h, false)).2 = true →
      numVertices (groups.foldl fuseGroupStep (h, false)).1 < numVertices h := by
  intro groups
  induction groups with
  | nil => intro h _ hm; simp at hm
  | cons kv tl ih =>
    intro h hmem hm
    simp only [List.foldl_cons] at hm ⊢
    cases hkv : kv.2 with
    | nil =>
      have hstep : fuseGroupStep (h, false) kv = (h, false) := by
        simp [fuseGroupStep, hkv]
      rw [hstep] at hm ⊢
      exact ih h (fun kv' hkv' q hq => hmem kv' (List.mem_cons_of_mem _ hkv') q hq) hm
    | cons p0 tl2 =>
      cases htl2 : tl2 with
      | nil =>
        have hstep : fuseGroupStep (h, false) kv = (h, false) := by
          simp [fuseGroupStep, hkv, htl2]
        rw [hstep] at hm ⊢
        exact ih h (fun kv' hkv' q hq => hmem kv' (List.mem_cons_of_mem _ hkv') q hq) hm
      | cons p1 rest =>
        have hstep : fuseGroupStep (h, false) kv =
            (addToPhase ((p1 :: rest).foldl fuseStep (h, 0)).1 p0.2
              ((p1 :: rest).foldl fuseStep (h, 0)).2, true) := by
          simp [fuseGroupStep, hkv, htl2]
        rw [hstep] at hm ⊢
        have hp1 : containsVertex h p1.2 = true := by
          refine hmem kv (List.mem_cons_self _ _) p1 ?_
          rw [hkv, htl2]
          exact List.mem_cons_of_mem _ (List.mem_cons_self _ _)
        have hfirst : numVertices (fuseStep (h, (0 : ℚ)) p1).1 < numVertices h :=
          removeVertex_pair_strict h p1.1 p1.2 hp1
        have hinner : numVertices ((p1 :: rest).foldl fuseStep (h, 0)).1 < numVertices h := by
          simp only [List.foldl_cons]
          exact lt_of_le_of_lt (fuseInner_mono rest _) hfirst
        calc numVertices (tl.foldl fuseGroupStep _).1
            ≤ numVertices (addToPhase ((p1 :: rest).foldl fuseStep (h, 0)).1 p0.2
                ((p1 :: rest).foldl fuseStep (h, 0)).2) := fuseGroupsFold_mono tl _
          _ = numVertices ((p1 :: rest).foldl fuseStep (h, 0)).1 := numVertices_addToPhase _ _ _
          _ < numVertices h := hinner

theorem insertGadget_pairs (m : List (List V × List (V × V))) (key : List V)
    (pr : V × V) :
    ∀ kv ∈ insertGadget m key pr, ∀ q ∈ kv.2,
      (∃ kv' ∈ m, q ∈ kv'.2) ∨ q = pr := by
  induction m with
  | nil =>
    intro kv hkv q hq
    simp only [insertGadget, List.mem_singleton] at hkv
    rw [hkv] at hq
    simp only [List.mem_singleton] at hq
    exact Or.inr hq
  | cons kv0 rest ih =>
    intro kv hkv q hq
    simp only [insertGadget] at hkv
    by_cases hk : kv0.1 = key
    · rw [if_pos hk] at hkv
      rcases List.mem_cons.mp hkv with heq | hmem
      · rw [heq] at hq
        simp only [List.mem_append, List.mem_singleton] at hq
        rcases hq with hq | hq
        · exact Or.inl ⟨kv0, List.mem_cons_self _ _, hq⟩
        · exact Or.inr hq
      · exact Or.inl ⟨kv, List.mem_cons_of_mem _ hmem, hq⟩
    · rw [if_neg hk] at hkv
      rcases List.mem_cons.mp hkv with heq | hmem
      · exact Or.inl ⟨kv0, List.mem_cons_self _ _, heq ▸ hq⟩
      · rcases ih kv hmem q hq with hin | heq
        · obtain ⟨kv', hkv', hq'⟩ := hin
          exact Or.inl ⟨kv', List.mem_cons_of_mem _ hkv', hq'⟩
        · exact Or.inr heq

theorem buildGadgets_leaf_mem (key : Graph → V → V → List V) (g : Graph) :
    ∀ kv ∈ buildGadgetsWith key g, ∀ q ∈ kv.2, q.2 ∈ g.verts := by
  have main : ∀ (l : List V) (m : List (List V × List (V × V))),
      (∀ kv ∈ m, ∀ q ∈ kv.2, q.2 ∈ g.verts) →
      (∀ v ∈ l, v ∈ g.verts) →
      ∀ kv ∈ l.foldl (fun m v =>
        if vertexType g v == VType.Z && decide (phase g v = 0) then
          if degree g v == 1 then
            match firstNeighbor g v with
            | some w => insertGadget m (key g v w) (w, v)
            | none => m
          else m
        else m) m, ∀ q ∈ kv.2, q.2 ∈ g.verts := by
    intro l
    induction l with
    | nil => intro m hm _ kv hkv q hq; exact hm kv hkv q hq
    | cons v tl ih =>
      intro m hm hl
      simp only [List.foldl_cons]
      refine ih _ ?_ (fun w hw => hl w (List.mem_cons_of_mem _ hw))
      intro kv hkv q hq
      by_cases hz : (vertexType g v == VType.Z && decide (phase g v = 0)) = true
      · rw [if_pos hz] at hkv
        by_cases hd : (degree g v == 1) = true
        · rw [if_pos hd] at hkv
          cases hn : firstNeighbor g v with
          | none => rw [hn] at hkv; exact hm kv hkv q hq
          | some w =>
            rw [hn] at hkv
            rcases insertGadget_pairs m (key g v w) (w, v) kv hkv q hq with hin | heq
            · obtain ⟨kv', hkv', hq'⟩ := hin
              exact hm kv' hkv' q hq'
            · rw [heq]
              exact hl v (List.mem_cons_self _ _)
        · rw [if_neg hd] at hkv
          exact hm kv hkv q hq
      · rw [if_neg hz] at hkv
        exact hm kv hkv q hq
  intro kv hkv q hq
  exact main g.verts [] (by simp) (fun v hv => hv) kv hkv q hq

theorem fuseGadgets_strict (g : Graph) (h : (fuseGadgets g).2 = true) :
    numVertices (fuseGadgets g).1 < numVertices g := by
  have hmem : ∀ kv ∈ buildGadgets g, ∀ q ∈ kv.2, containsVertex g q.2 = true := by
    intro kv hkv q hq
    have := buildGadgets_leaf_mem gadgetKey g kv hkv q hq
    simpa [containsVertex, List.elem_eq_mem] using this
  exact fuseGroupsFold_strict (buildGadgets g) g hmem h

/-! ## Termination of the composite strategies under a strictly
decreasing rule library -/

theorem goodIdPass_toGood (f : Graph → Option (Graph × Bool)) (g : Graph)
    (h : GoodIdPass f g) : GoodPass f g := by
  obtain ⟨r, hr, hs, hi⟩ := h
  exact ⟨r, hr, goodIdPass_mono f g r ⟨r, hr, hs, hi⟩ hr, hs⟩

theorem simpLoopO_good (round : Graph → Option (Graph × Bool)) (N : Nat)
    (Hg : ∀ h, numVertices h ≤ N → GoodPass round h) (fuel : Nat) (g : Graph)
    (hle : numVertices g ≤ N) (hfuel : numVertices g < fuel) :
    GoodPass (fun g' => simpLoopO round fuel g' false) g := by
  have hsome := simpLoopO_isSome round N (fun h hh => Hg h hh) fuel g false hle hfuel
  obtain ⟨r, hr⟩ := Option.isSome_iff_exists.mp hsome
  refine ⟨r, hr, ?_, ?_⟩
  · exact simpLoopO_mono_bounded round N
      (fun h r' hle' heq => (goodPass_elim round h r' (Hg h hle') heq).1)
      fuel g false r hle hr
  · intro hb
    exact simpLoopO_result_true_lt round N
      (fun h r' hle' heq => goodPass_elim round h r' (Hg h hle') heq)
      fuel g r.1 hle (by rw [← prodBool_eta_true r hb]; exact hr)

theorem interior_good (L : RuleLib) (HL : StrictLib L) (F ifuel : Nat) (g : Graph)
    (hF : numVertices g < F) (hifuel : numVertices g < ifuel) :
    GoodPass (interiorCliffordSimp L F ifuel) g := by
  obtain ⟨r0, hr0, hs0, hi0⟩ :=
    edgeSimp_good EType.N L.checkSpiderFusion L.spiderFusionUnchecked HL.2.2.1 false F g hF
  have hm0 : numVertices r0.1 ≤ numVertices g :=
    goodIdPass_mono _ g r0 ⟨r0, hr0, hs0, hi0⟩ hr0
  have hnums : numVertices (xToZ r0.1) = numVertices r0.1 := numVertices_xToZ r0.1
  have Hg : ∀ h, numVertices h ≤ numVertices g → GoodPass (fourPassRound L F) h :=
    fun h hle => goodIdPass_toGood _ _ (fourPass_good L HL F h (lt_of_le_of_lt hle hF))
  obtain ⟨r, hr, hm, hs⟩ := simpLoopO_good (fourPassRound L F) (numVertices g) Hg
    ifuel (xToZ r0.1) (by omega) (by omega)
  refine ⟨r, ?_, le_trans hm (by omega), fun hb => lt_of_lt_of_le (hs hb) (by omega)⟩
  simp only [interiorCliffordSimp]
  rw [show spiderSimp L F g = some r0 from hr0]
  simp only [Option.some_bind]
  exact hr

theorem cliffordRound_good (L : RuleLib) (HL : StrictLib L) (F ifuel : Nat)
    (g : Graph) (hF : numVertices g < F) (hifuel : numVertices g < ifuel) :
    GoodPass (cliffordRound L F ifuel) g := by
  obtain ⟨p, hp, hmp, hsp⟩ := interior_good L HL F ifuel g hF hifuel
  by_cases bp : p.2 = true
  · refine ⟨(p.1, true), ?_, hmp, fun _ => hsp bp⟩
    simp [cliffordRound, hp, bp]
  · obtain ⟨q, hq, hsq, hiq⟩ :=
      edgeSimp_good EType.H L.checkGenPivotReduce L.genPivotUnchecked HL.2.2.2.2
        false F p.1 (lt_of_le_of_lt hmp hF)
    have hmq : numVertices q.1 ≤ numVertices p.1 :=
      goodIdPass_mono _ p.1 q ⟨q, hq, hsq, hiq⟩ hq
    refine ⟨(q.1, q.2), ?_, le_trans hmq hmp, ?_⟩
    · simp [cliffordRound, hp, bp, show genPivotSimp L F p.1 = some q from hq]
    · intro hb
      exact lt_of_lt_of_le (hsq hb) hmp

theorem cliffordSimp_good (L : RuleLib) (HL : StrictLib L) (F ifuel cfuel : Nat)
    (g : Graph) (hF : numVertices g < F) (hifuel : numVertices g < ifuel)
    (hcfuel : numVertices g < cfuel) :
    GoodPass (cliffordSimp L F ifuel cfuel) g := by
  have Hg : ∀ h, numVertices h ≤ numVertices g →
      GoodPass (cliffordRound L F ifuel) h :=
    fun h hle => cliffordRound_good L HL F ifuel h (lt_of_le_of_lt hle hF)
      (lt_of_le_of_lt hle hifuel)
  obtain ⟨r, hr, hm, hs⟩ := simpLoopO_good (cliffordRound L F ifuel) (numVertices g)
    Hg cfuel g le_rfl hcfuel
  exact ⟨r, hr, hm, hs⟩

theorem fullRound_good (L : RuleLib) (HL : StrictLib L) (F ifuel cfuel : Nat)
    (g : Graph) (hF : numVertices g < F) (hifuel : numVertices g < ifuel)
    (hcfuel : numVertices g < cfuel) :
    GoodPass (fullRound L F ifuel cfuel) g := by
  obtain ⟨p, hp, hmp, hsp⟩ := cliffordSimp_good L HL F ifuel cfuel g hF hifuel hcfuel
  by_cases bp : p.2 = true
  · refine ⟨(p.1, true), ?_, hmp, fun _ => hsp bp⟩
    simp [fullRound, hp, bp]
  · refine ⟨fuseGadgets p.1, ?_, le_trans (fuseGadgets_mono p.1) hmp, ?_⟩
    · simp [fullRound, hp, bp]
    · intro hb
      exact lt_of_lt_of_le (fuseGadgets_strict p.1 hb) hmp

theorem fullSimp_good (L : RuleLib) (HL : StrictLib L) (F ifuel cfuel fuel : Nat)
    (g : Graph) (hF : numVertices g < F) (hifuel : numVertices g < ifuel)
    (hcfuel : numVertices g < cfuel) (hfuel : numVertices g < fuel) :
    GoodPass (fullSimp L F ifuel cfuel fuel) g := by
  have Hg : ∀ h, numVertices h ≤ numVertices g →
      GoodPass (fullRound L F ifuel cfuel) h :=
    fun h hle => fullRound_good L HL F ifuel cfuel h (lt_of_le_of_lt hle hF)
      (lt_of_le_of_lt hle hifuel) (lt_of_le_of_lt hle hcfuel)
  obtain ⟨r, hr, hm, hs⟩ := simpLoopO_good (fullRound L F ifuel cfuel) (numVertices g)
    Hg fuel g le_rfl hfuel
  exact ⟨r, hr, hm, hs⟩

/-! ## Instrumented scans

Ghost-state variants of the single-round scans: they compute exactly the
same graph and flag, and additionally record, in order, the arguments of
every `check` invocation (and, for edges, every `rule` invocation). -/

/-- Instrumented edge-scan step: same control flow as `edgeSimpStep`,
recording the (current graph, source, target, snapshot kind) at every
`check` call (third component) and every `rule` call (fourth). -/
def edgeSimpStepTr (edgeType : EType) (check : Graph → V → V → Bool)
    (rule : Graph → V → V → Graph)
    (acc : Graph × Bool × List (Graph × V × V × EType) × List (Graph × V × V × EType))
    (e : V × V × EType) :
    Graph × Bool × List (Graph × V × V × EType) × List (Graph × V × V × EType) :=
  if e.2.2 == edgeType && containsVertex acc.1 e.1 && containsVertex acc.1 e.2.1 then
    if check acc.1 e.1 e.2.1 then
      (rule acc.1 e.1 e.2.1, true,
        acc.2.2.1 ++ [(acc.1, e.1, e.2.1, e.2.2)],
        acc.2.2.2 ++ [(acc.1, e.1, e.2.1, e.2.2)])
    else
      (acc.1, acc.2.1, acc.2.2.1 ++ [(acc.1, e.1, e.2.1, e.2.2)], acc.2.2.2)
  else acc

/-- One instrumented round of `edge_simp`. -/
def edgeSimpRoundTr (edgeType : EType) (check : Graph → V → V → Bool)
    (rule : Graph → V → V → Graph) (g : Graph) :
    Graph × Bool × List (Graph × V × V × EType) × List (Graph × V × V × EType) :=
  g.edges.foldl (edgeSimpStepTr edgeType check rule) (g, false, [], [])

/-- Instrumented vertex-scan step: same control flow as
`vertexSimpStep`, recording the (current graph, handle) of every `check`
call — which happens for every snapshot handle, with no existence
test. -/
def vertexSimpStepTr (check : Graph → V → Bool) (rule : Graph → V → Graph)
    (acc : Graph × Bool × List (Graph × V)) (v : V) :
    Graph × Bool × List (Graph × V) :=
  if check acc.1 v then (rule acc.1 v, true, acc.2.2 ++ [(acc.1, v)])
  else (acc.1, acc.2.1, acc.2.2 ++ [(acc.1, v)])

/-- One instrumented round of `vertex_simp`. -/
def vertexSimpRoundTr (check : Graph → V → Bool) (rule : Graph → V → Graph)
    (g : Graph) : Graph × Bool × List (Graph × V) :=
  g.verts.foldl (vertexSimpStepTr check rule) (g, false, [])

theorem edgeSimpRoundTr_agrees (et : EType) (check : Graph → V → V → Bool)
    (rule : Graph → V → V → Graph) (g : Graph) :
    (edgeSimpRoundTr et check rule g).1 = (edgeSimpRound et check rule g).1 ∧
      (edgeSimpRoundTr et check rule g).2.1 = (edgeSimpRound et check rule g).2 := by
  have main : ∀ (l : List (V × V × EType))
      (a : Graph × Bool × List (Graph × V × V × EType) × List (Graph × V × V × EType))
      (p : Graph × Bool), a.1 = p.1 → a.2.1 = p.2 →
      (l.foldl (edgeSimpStepTr et check rule) a).1 =
        (l.foldl (edgeSimpStep et check rule) p).1 ∧
      (l.foldl (edgeSimpStepTr et check rule) a).2.1 =
        (l.foldl (edgeSimpStep et check rule) p).2 := by
    intro l
    induction l with
    | nil => intro a p h1 h2; exact ⟨h1, h2⟩
    | cons e tl ih =>
      intro a p h1 h2
      obtain ⟨ag, ab, cc, rc⟩ := a
      obtain ⟨pg, pb⟩ := p
      simp only at h1 h2
      subst h1
      subst h2
      simp only [List.foldl_cons]
      by_cases hg : (e.2.2 == et && containsVertex ag e.1 && containsVertex ag e.2.1) = true
      · by_cases hc : check ag e.1 e.2.1 = true
        · refine ih _ _ ?_ ?_
          · simp [edgeSimpStepTr, edgeSimpStep, hg, hc]
          · simp [edgeSimpStepTr, edgeSimpStep, hg, hc]
        · have hc' : check ag e.1 e.2.1 = false := by simpa using hc
          refine ih _ _ ?_ ?_
          · simp [edgeSimpStepTr, edgeSimpStep, hg, hc']
          · simp [edgeSimpStepTr, edgeSimpStep, hg, hc']
      · have hg' : (e.2.2 == et && containsVertex ag e.1 && containsVertex ag e.2.1) = false := by
          simpa using hg
        refine ih _ _ ?_ ?_
        · simp [edgeSimpStepTr, edgeSimpStep, hg']
        · simp [edgeSimpStepTr, edgeSimpStep, hg']
  exact main g.edges (g, false, [], []) (g, false) rfl rfl

theorem edgeSimpRoundTr_valid (et : EType) (check : Graph → V → V → Bool)
    (rule : Graph → V → V → Graph) (g : Graph) :
    (∀ x ∈ (edgeSimpRoundTr et check rule g).2.2.1,
      x.2.2.2 = et ∧ containsVertex x.1 x.2.1 = true ∧
        containsVertex x.1 x.2.2.1 = true) ∧
    (∀ x ∈ (edgeSimpRoundTr et check rule g).2.2.2,
      x.2.2.2 = et ∧ containsVertex x.1 x.2.1 = true ∧
        containsVertex x.1 x.2.2.1 = true) := by
  have main : ∀ (l : List (V × V × EType))
      (a : Graph × Bool × List (Graph × V × V × EType) × List (Graph × V × V × EType)),
      (∀ x ∈ a.2.2.1, x.2.2.2 = et ∧ containsVertex x.1 x.2.1 = true ∧
        containsVertex x.1 x.2.2.1 = true) →
      (∀ x ∈ a.2.2.2, x.2.2.2 = et ∧ containsVertex x.1 x.2.1 = true ∧
        containsVertex x.1 x.2.2.1 = true) →
      (∀ x ∈ (l.foldl (edgeSimpStepTr et check rule) a).2.2.1,
        x.2.2.2 = et ∧ containsVertex x.1 x.2.1 = true ∧
          containsVertex x.1 x.2.2.1 = true) ∧
      (∀ x ∈ (l.foldl (edgeSimpStepTr et check rule) a).2.2.2,
        x.2.2.2 = et ∧ containsVertex x.1 x.2.1 = true ∧
          containsVertex x.1 x.2.2.1 = true) := by
    intro l
    induction l with
    | nil => intro a h1 h2; exact ⟨h1, h2⟩
    | cons e tl ih =>
      intro a h1 h2
      simp only [List.foldl_cons]
      by_cases hg : (e.2.2 == et && containsVertex a.1 e.1 && containsVertex a.1 e.2.1) = true
      · have hk : (e.2.2 == et) = true := by
          simp only [Bool.and_eq_true] at hg
          exact hg.1.1
        have hcs : containsVertex a.1 e.1 = true := by
          simp only [Bool.and_eq_true] at hg
          exact hg.1.2
        have hct : containsVertex a.1 e.2.1 = true := by
          simp only [Bool.and_eq_true] at hg
          exact hg.2
        have hval : e.2.2 = et := by simpa using hk
        by_cases hc : check a.1 e.1 e.2.1 = true
        · refine ih _ ?_ ?_
          · intro x hx
            simp only [edgeSimpStepTr, hg, hc, if_true, List.mem_append,
              List.mem_singleton] at hx
            rcases hx with hx | hx
            · exact h1 x hx
            · rw [hx]
              exact ⟨hval, hcs, hct⟩
          · intro x hx
            simp only [edgeSimpStepTr, hg, hc, if_true, List.mem_append,
              List.mem_singleton] at hx
            rcases hx with hx | hx
            · exact h2 x hx
            · rw [hx]
              exact ⟨hval, hcs, hct⟩
        · refine ih _ ?_ ?_
          · intro x hx
            simp only [edgeSimpStepTr, hg, hc, if_true, Bool.false_eq_true, if_false,
              List.mem_append, List.mem_singleton] at hx
            rcases hx with hx | hx
            · exact h1 x hx
            · rw [hx]
              exact ⟨hval, hcs, hct⟩
          · intro x hx
            simp only [edgeSimpStepTr, hg, hc, if_true, Bool.false_eq_true, if_false,
              List.mem_append, List.mem_singleton] at hx
            exact h2 x hx
      · have hstep : edgeSimpStepTr et check rule a e = a := by
          simp [edgeSimpStepTr, hg]
        rw [hstep]
        exact ih a h1 h2
  exact main g.edges (g, false, [], []) (by simp) (by simp)

theorem vertexSimpRoundTr_checks (check : Graph → V → Bool)
    (rule : Graph → V → Graph) (g : Graph) :
    ((vertexSimpRoundTr check rule g).2.2).map Prod.snd = g.verts := by
  have main : ∀ (l : List V) (a : Graph × Bool × List (Graph × V)),
      ((l.foldl (vertexSimpStepTr check rule) a).2.2).map Prod.snd =
        a.2.2.map Prod.snd ++ l := by
    intro l
    induction l with
    | nil => intro a; simp
    | cons v tl ih =>
      intro a
      simp only [List.foldl_cons]
      by_cases hc : check a.1 v = true
      · rw [show vertexSimpStepTr check rule a v = (rule a.1 v, true, a.2.2 ++ [(a.1, v)])
          from by simp [vertexSimpStepTr, hc]]
        rw [ih]
        simp
      · rw [show vertexSimpStepTr check rule a v = (a.1, a.2.1, a.2.2 ++ [(a.1, v)])
          from by simp [vertexSimpStepTr, hc]]
        rw [ih]
        simp
  simpa using main g.verts (g, false, [])

theorem vertexSimpRoundTr_agrees (check : Graph → V → Bool)
    (rule : Graph → V → Graph) (g : Graph) :
    (vertexSimpRoundTr check rule g).1 = (vertexSimpRound check rule g).1 ∧
      (vertexSimpRoundTr check rule g).2.1 = (vertexSimpRound check rule g).2 := by
  have main : ∀ (l : List V) (a : Graph × Bool × List (Graph × V)) (p : Graph × Bool),
      a.1 = p.1 → a.2.1 = p.2 →
      (l.foldl (vertexSimpStepTr check rule) a).1 =
        (l.foldl (vertexSimpStep check rule) p).1 ∧
      (l.foldl (vertexSimpStepTr check rule) a).2.1 =
        (l.foldl (vertexSimpStep check rule) p).2 := by
    intro l
    induction l with
    | nil => intro a p h1 h2; exact ⟨h1, h2⟩
    | cons v tl ih =>
      intro a p h1 h2
      obtain ⟨ag, ab, cc⟩ := a
      obtain ⟨pg, pb⟩ := p
      simp only at h1 h2
      subst h1
      subst h2
      simp only [List.foldl_cons]
      by_cases hc : check ag v = true
      · refine ih _ _ ?_ ?_
        · simp [vertexSimpStepTr, vertexSimpStep, hc]
        · simp [vertexSimpStepTr, vertexSimpStep, hc]
      · have hc' : check ag v = false := by simpa using hc
        refine ih _ _ ?_ ?_
        · simp [vertexSimpStepTr, vertexSimpStep, hc']
        · simp [vertexSimpStepTr, vertexSimpStep, hc']
  exact main g.verts (g, false, []) (g, false) rfl rfl

/-- Instrumented variant of `clifford_simp`'s loop: alongside the final
graph and `got_match` it records, per round and in order, (whether the
interior pass reported a match, whether the generalized-pivot sweep was
executed at all in that round, whether that sweep reported a match). -/
def cliffordLoopTr (L : RuleLib) (F ifuel : Nat) :
    Nat → Graph → Option (Graph × Bool × List (Bool × Bool × Bool))
  | 0, _ => none
  | fuel + 1, g =>
    (interiorCliffordSimp L F ifuel g).bind fun p =>
    if p.2 then
      (cliffordLoopTr L F ifuel fuel p.1).map fun r =>
        (r.1, true, (true, false, false) :: r.2.2)
    else
      (genPivotSimp L F p.1).bind fun q =>
      if q.2 then
        (cliffordLoopTr L F ifuel fuel q.1).map fun r =>
          (r.1, true, (false, true, true) :: r.2.2)
      else some (q.1, false, [(false, true, false)])

theorem simpLoopO_gm_true (round : Graph → Option (Graph × Bool)) :
    ∀ (fuel : Nat) (g : Graph),
      simpLoopO round fuel g true =
        (simpLoopO round fuel g false).map (fun r => (r.1, true)) := by
  intro fuel
  induction fuel with
  | zero => intro g; simp [simpLoopO]
  | succ n ih =>
    intro g
    simp only [simpLoopO]
    cases hr : round g with
    | none => simp
    | some p =>
      simp only [Option.some_bind]
      by_cases hp : p.2 = true
      · rw [if_pos hp, if_pos hp, ih]
        cases hv : simpLoopO round n p.1 false with
        | none => simp
        | some r =>
          have hrt := simpLoopO_true_stays round n p.1 (r.1, true)
            (by rw [ih, hv]; rfl)
          simp
      · rw [if_neg hp, if_neg hp]
        simp

theorem cliffordLoopTr_agrees (L : RuleLib) (F ifuel : Nat) :
    ∀ (fuel : Nat) (g : Graph),
      (cliffordLoopTr L F ifuel fuel g).map (fun r => (r.1, r.2.1)) =
        cliffordSimp L F ifuel fuel g := by
  intro fuel
  induction fuel with
  | zero => intro g; simp [cliffordLoopTr, cliffordSimp, simpLoopO]
  | succ n ih =>
    intro g
    simp only [cliffordLoopTr, cliffordSimp, simpLoopO, cliffordRound]
    cases hint : interiorCliffordSimp L F ifuel g with
    | none => simp
    | some p =>
      simp only [Option.some_bind]
      by_cases hp : p.2 = true
      · rw [if_pos hp, if_pos hp]
        have lhs : ((cliffordLoopTr L F ifuel n p.1).map fun r =>
            (r.1, true, (true, false, false) :: r.2.2)).map (fun r => (r.1, r.2.1)) =
            (cliffordLoopTr L F ifuel n p.1).map (fun r => (r.1, true)) := by
          cases cliffordLoopTr L F ifuel n p.1 <;> simp
        rw [lhs]
        have : (cliffordLoopTr L F ifuel n p.1).map (fun r => (r.1, true)) =
            ((cliffordLoopTr L F ifuel n p.1).map (fun r => (r.1, r.2.1))).map
              (fun r => (r.1, true)) := by
          cases cliffordLoopTr L F ifuel n p.1 <;> simp
        rw [this, ih]
        show Option.map (fun r => (r.1, true))
            (simpLoopO (cliffordRound L F ifuel) n p.1 false) = _
        rw [← simpLoopO_gm_true]
        simp
      · rw [if_neg hp, if_neg hp]
        cases hgp : genPivotSimp L F p.1 with
        | none => simp
        | some q =>
          simp only [Option.some_bind]
          by_cases hq : q.2 = true
          · rw [if_pos hq]
            have hql : q = (q.1, true) := prodBool_eta_true q hq
            have lhs : ((cliffordLoopTr L F ifuel n q.1).map fun r =>
                (r.1, true, (false, true, true) :: r.2.2)).map (fun r => (r.1, r.2.1)) =
                ((cliffordLoopTr L F ifuel n q.1).map (fun r => (r.1, r.2.1))).map
                  (fun r => (r.1, true)) := by
              cases cliffordLoopTr L F ifuel n q.1 <;> simp
            rw [lhs, ih]
            show Option.map (fun r => (r.1, true))
                (simpLoopO (cliffordRound L F ifuel) n q.1 false) = _
            rw [← simpLoopO_gm_true]
            rw [hql]
            simp
          · have hq' : q.2 = false := by simpa using hq
            rw [prodBool_eta q hq]
            simp [cliffordSimp]


/-! ## Frame lemmas for `fuse_gadgets` -/

theorem fuseGroupStep_short (acc : Graph × Bool) (kv : List V × List (V × V))
    (h : kv.2.length ≤ 1) : fuseGroupStep acc kv = acc := by
  simp only [fuseGroupStep]
  cases hkv : kv.2 with
  | nil => rfl
  | cons p0 tl =>
    cases htl : tl with
    | nil => rfl
    | cons p1 rest =>
      rw [hkv, htl] at h
      simp at h

theorem fuseGroupsFold_noop : ∀ (groups : List (List V × List (V × V)))
    (acc : Graph × Bool), (∀ kv ∈ groups, kv.2.length ≤ 1) →
    groups.foldl fuseGroupStep acc = acc := by
  intro groups
  induction groups with
  | nil => intro acc _; rfl
  | cons kv tl ih =>
    intro acc hshort
    simp only [List.foldl_cons]
    rw [fuseGroupStep_short acc kv (hshort kv (List.mem_cons_self _ _))]
    exact ih acc (fun kv' h' => hshort kv' (List.mem_cons_of_mem _ h'))

theorem fuseGroupsFold_true_mono : ∀ (groups : List (List V × List (V × V)))
    (acc : Graph × Bool), acc.2 = true →
    (groups.foldl fuseGroupStep acc).2 = true := by
  intro groups
  induction groups with
  | nil => intro acc h; exact h
  | cons kv tl ih =>
    intro acc h
    simp only [List.foldl_cons]
    refine ih _ ?_
    simp only [fuseGroupStep]
    cases kv.2 with
    | nil => exact h
    | cons p0 tl2 =>
      cases tl2 with
      | nil => exact h
      | cons p1 rest => rfl

theorem fuseGroupsFold_true_of_long : ∀ (groups : List (List V × List (V × V)))
    (acc : Graph × Bool), (∃ kv ∈ groups, 1 < kv.2.length) →
    (groups.foldl fuseGroupStep acc).2 = true := by
  intro groups
  induction groups with
  | nil => intro acc h; simp at h
  | cons kv tl ih =>
    intro acc h
    simp only [List.foldl_cons]
    obtain ⟨kv', hkv', hlong⟩ := h
    rcases List.mem_cons.mp hkv' with heq | hmem
    · subst heq
      obtain ⟨p0, tl2, htl2⟩ : ∃ p0 tl2, kv'.2 = p0 :: tl2 := by
        cases hx : kv'.2 with
        | nil => rw [hx] at hlong; simp at hlong
        | cons a b => exact ⟨a, b, rfl⟩
      obtain ⟨p1, rest, hrest⟩ : ∃ p1 rest, tl2 = p1 :: rest := by
        cases hx : tl2 with
        | nil => rw [htl2, hx] at hlong; simp at hlong
        | cons a b => exact ⟨a, b, rfl⟩
      refine fuseGroupsFold_true_mono tl _ ?_
      simp [fuseGroupStep, htl2, hrest]
    · exact ih _ ⟨kv', hmem, hlong⟩

/-! ## Concrete rule libraries and diagrams used in the concrete
evaluations below -/

/-- The empty diagram. -/
def gEmpty : Graph := { verts := [], types := [], phases := [], edges := [] }

/-- A rule library whose checks never match and whose rewrites do
nothing. -/
def trivLib : RuleLib :=
  { checkRemoveId := fun _ _ => false
    removeIdUnchecked := fun g _ => g
    checkLocalComp := fun _ _ => false
    localCompUnchecked := fun g _ => g
    checkSpiderFusion := fun _ _ _ => false
    spiderFusionUnchecked := fun g _ _ => g
    checkPivot := fun _ _ _ => false
    pivotUnchecked := fun g _ _ => g
    checkGenPivotReduce := fun _ _ _ => false
    genPivotUnchecked := fun g _ _ => g }

/-- Two phase gadgets over the same logical subspace: hubs 0 and 1, each
carrying a zero-phase degree-1 Z-leaf (2 resp. 3) and a Hadamard edge to
the shared Z-neighbor 4. -/
def gTwoGadgets : Graph :=
  { verts := [0, 1, 2, 3, 4]
    types := [(0, VType.Z), (1, VType.Z), (2, VType.Z), (3, VType.Z), (4, VType.Z)]
    phases := [(0, 0), (1, 0), (2, 0), (3, 0), (4, 0)]
    edges := [(0, 2, EType.H), (1, 3, EType.H), (0, 4, EType.H), (1, 4, EType.H)] }

/-- Check for the force-reduce counterexample: vertex 1 always matches;
vertex 0 matches only once vertex 1 is gone — so a second round would
find a further match. -/
def haltCheck : Graph → V → Bool := fun g v =>
  (v == 1) || (v == 0 && !containsVertex g 1)

/-- Rule for the force-reduce counterexample: delete exactly the matched
vertex (satisfying the stated rewrite contract). -/
def haltRule : Graph → V → Graph := fun g v => removeVertex g v

/-- Two isolated Z-vertices. -/
def gHalt : Graph :=
  { verts := [0, 1], types := [(0, VType.Z), (1, VType.Z)]
    phases := [(0, 0), (1, 0)], edges := [] }

/-- `gHalt` after round one deleted vertex 1. -/
def gHalt1 : Graph :=
  { verts := [0], types := [(0, VType.Z)], phases := [(0, 0)], edges := [] }

/-- Check that matches every vertex. -/
def noopCheck : Graph → V → Bool := fun _ _ => true

/-- Rewrite that deletes nothing and changes nothing — it trivially
"deletes at most the matched vertex and introduces no new vertices". -/
def noopRule : Graph → V → Graph := fun g _ => g

/-- A single Z-vertex. -/
def gOne : Graph :=
  { verts := [0], types := [(0, VType.Z)], phases := [(0, 0)], edges := [] }

/-- `vertex_simp` reaches its loop exit within some fuel bound. -/
def VertexSimpTerminates (check : Graph → V → Bool) (rule : Graph → V → Graph)
    (fr : Bool) (g : Graph) : Prop :=
  ∃ fuel r, vertexSimp check rule fr fuel g = some r

/-- Check for the dangling-handle demonstration: only vertex 0 matches. -/
def danglingCheck : Graph → V → Bool := fun _ v => v == 0

/-- Rule for the dangling-handle demonstration: deletes vertex 1, a
vertex other than the matched one that appears later in the snapshot. -/
def danglingRule : Graph → V → Graph := fun g _ => removeVertex g 1

/-- Two isolated Z-vertices for the dangling-handle demonstration. -/
def gDang : Graph :=
  { verts := [0, 1], types := [(0, VType.Z), (1, VType.Z)]
    phases := [(0, 0), (1, 0)], edges := [] }

/-- `gDang` after vertex 1 was deleted. -/
def gDang1 : Graph :=
  { verts := [0], types := [(0, VType.Z)], phases := [(0, 0)], edges := [] }

/-- A single X-vertex: `interior_clifford_simp` converts it to Z while
reporting no match. -/
def gX10 : Graph :=
  { verts := [0], types := [(0, VType.X)], phases := [(0, 0)], edges := [] }

/-- `gX10` after `x_to_z`. -/
def gZ10 : Graph :=
  { verts := [0], types := [(0, VType.Z)], phases := [(0, 0)], edges := [] }

/-- Library for the short-circuit counterexample.  State is held in
three "flag" edges eA = (10,11), eB = (12,13), eC = (14,15), all
Hadamard; every rewrite only alters edges, which the spec allows any
rule to do freely.  id consumes eA into eB (and later consumes eB∧eC);
spider-fusion (on the Normal edge (3,4)) turns eB into eB∧eC; pivot (on
the Hadamard edge (5,6)) consumes both eB and eC. -/
def scLib : RuleLib :=
  { checkRemoveId := fun g v =>
      v == 0 && (hasEdge g 10 11 EType.H ||
        (hasEdge g 12 13 EType.H && hasEdge g 14 15 EType.H))
    removeIdUnchecked := fun g _ =>
      if hasEdge g 10 11 EType.H then
        addEdge (removeEdge g 10 11 EType.H) 12 13 EType.H
      else removeEdge g 12 13 EType.H
    checkLocalComp := fun _ _ => false
    localCompUnchecked := fun g _ => g
    checkSpiderFusion := fun g s t =>
      s == 3 && t == 4 && hasEdge g 12 13 EType.H && !hasEdge g 14 15 EType.H
    spiderFusionUnchecked := fun g _ _ => addEdge g 14 15 EType.H
    checkPivot := fun g s t =>
      s == 5 && t == 6 && hasEdge g 12 13 EType.H && hasEdge g 14 15 EType.H
    pivotUnchecked := fun g _ _ =>
      removeEdge (removeEdge g 12 13 EType.H) 14 15 EType.H
    checkGenPivotReduce := fun _ _ _ => false
    genPivotUnchecked := fun g _ _ => g }

/-- Diagram for the short-circuit counterexample. -/
def gSC : Graph :=
  { verts := [0, 3, 4, 5, 6, 10, 11, 12, 13, 14, 15]
    types := [(0, VType.Z), (3, VType.Z), (4, VType.Z), (5, VType.Z), (6, VType.Z),
      (10, VType.Z), (11, VType.Z), (12, VType.Z), (13, VType.Z),
      (14, VType.Z), (15, VType.Z)]
    phases := [(0, 0), (3, 0), (4, 0), (5, 0), (6, 0), (10, 0), (11, 0),
      (12, 0), (13, 0), (14, 0), (15, 0)]
    edges := [(3, 4, EType.N), (5, 6, EType.H), (10, 11, EType.H)] }

/-- Library for the gen-pivot-skip counterexample: identity-removal
matches once (consuming the flag edge (10,11)); everything else never
matches. -/
def skipLib : RuleLib :=
  { checkRemoveId := fun g v => v == 0 && hasEdge g 10 11 EType.H
    removeIdUnchecked := fun g _ => removeEdge g 10 11 EType.H
    checkLocalComp := fun _ _ => false
    localCompUnchecked := fun g _ => g
    checkSpiderFusion := fun _ _ _ => false
    spiderFusionUnchecked := fun g _ _ => g
    checkPivot := fun _ _ _ => false
    pivotUnchecked := fun g _ _ => g
    checkGenPivotReduce := fun _ _ _ => false
    genPivotUnchecked := fun g _ _ => g }

/-- Diagram for the gen-pivot-skip counterexample. -/
def gSkip : Graph :=
  { verts := [0, 10, 11]
    types := [(0, VType.Z), (10, VType.Z), (11, VType.Z)]
    phases := [(0, 0), (10, 0), (11, 0)]
    edges := [(10, 11, EType.H)] }

/-- `gSkip` after the flag edge was consumed. -/
def gSkipF : Graph :=
  { verts := [0, 10, 11]
    types := [(0, VType.Z), (10, VType.Z), (11, VType.Z)]
    phases := [(0, 0), (10, 0), (11, 0)]
    edges := [] }

/-- An always-true edge check, for the re-validation witness. -/
def wEdgeCheck : Graph → V → V → Bool := fun _ _ _ => true

/-- Edge rule deleting both endpoints, as pivot does. -/
def wEdgeRule : Graph → V → V → Graph := fun g s t =>
  removeVertex (removeVertex g s) t

/-- A single Hadamard edge. -/
def gW6 : Graph :=
  { verts := [0, 1], types := [(0, VType.Z), (1, VType.Z)]
    phases := [(0, 0), (1, 0)], edges := [(0, 1, EType.H)] }



/-! ## Claim theorems -/

/-- C1: the claim says `fuse_gadgets` groups (hub, leaf) pairs by the
sorted list of the hub's other Hadamard-edge Z-neighbors and fuses every
group with two or more pairs.  The code does not: line 147 of
simplify.rs pushes the leaf `v` itself instead of the neighbor `n`, so
two gadgets over the same neighbor 4 receive the distinct keys [2] and
[3], nothing is fused and `false` is returned — while the grouping the
spec describes keys both by [4], fuses them to a single (hub, leaf) pair
and returns `true`. -/
theorem fuse_gadgets_key_bug :
    buildGadgets gTwoGadgets = [([2], [(0, 2)]), ([3], [(1, 3)])] ∧
    fuseGadgets gTwoGadgets = (gTwoGadgets, false) ∧
    buildGadgetsWith gadgetKeySpec gTwoGadgets = [([4], [(0, 2), (1, 3)])] ∧
    (fuseGadgetsSpec gTwoGadgets).2 = true ∧
    (fuseGadgetsSpec gTwoGadgets).1.verts = [0, 2, 4] := by
  exact ⟨by decide, by decide, by decide, by decide, by decide⟩

/-- C2 counterexample: with `force_reduce = true`, a round that strictly
decreased the vertex count and produced a match does NOT lead to another
round: on `gHalt` the first round deletes vertex 1 (2 → 1 vertices,
matched), a further match on vertex 0 is now available (`haltCheck` is
true on it, and the `force_reduce = false` run does consume it, emptying
the graph), yet the `force_reduce = true` driver stops with vertex 0
still present — because the break `numv >= g.num_vertices()` fires
whenever a round did not strictly increase the count. -/
theorem force_reduce_halts_ce :
    vertexSimpRound haltCheck haltRule gHalt = (gHalt1, true) ∧
    numVertices gHalt1 < numVertices gHalt ∧
    vertexSimp haltCheck haltRule true 10 gHalt = some (gHalt1, true) ∧
    haltCheck gHalt1 0 = true ∧
    vertexSimp haltCheck haltRule false 10 gHalt = some (gEmpty, true) ∧
    gHalt1 ≠ gEmpty := by
  exact ⟨by decide, by decide, by decide, by decide, by decide, by decide⟩

/-- C2 as amended: under the contract that no rewrite increases the
vertex count, a Rewrite Driver with `force_reduce = true` never
increases the vertex count across a round, and it halts as soon as a
round fails to strictly decrease the count — indeed it always halts
right after the first round, whose result it returns. -/
theorem force_reduce_amended :
    (∀ (check : Graph → V → Bool) (rule : Graph → V → Graph) (g : Graph),
      (∀ h v, check h v = true → numVertices (rule h v) ≤ numVertices h) →
      numVertices (vertexSimpRound check rule g).1 ≤ numVertices g ∧
      ∀ fuel, vertexSimp check rule true (fuel + 1) g =
        some (vertexSimpRound check rule g)) ∧
    (∀ (et : EType) (check : Graph → V → V → Bool) (rule : Graph → V → V → Graph)
      (g : Graph),
      (∀ h s t, check h s t = true → numVertices (rule h s t) ≤ numVertices h) →
      numVertices (edgeSimpRound et check rule g).1 ≤ numVertices g ∧
      ∀ fuel, edgeSimp et check rule true (fuel + 1) g =
        some (edgeSimpRound et check rule g)) := by
  constructor
  · intro check rule g Hm
    have Hm' : ∀ h, numVertices (vertexSimpRound check rule h).1 ≤ numVertices h :=
      fun h => vertexFold_mono check rule Hm h.verts (h, false)
    refine ⟨Hm' g, fun fuel => ?_⟩
    have := simpLoop_force_one (vertexSimpRound check rule) Hm' fuel g false
    rw [Bool.false_or] at this
    exact this
  · intro et check rule g Hm
    have Hm' : ∀ h, numVertices (edgeSimpRound et check rule h).1 ≤ numVertices h :=
      fun h => edgeFold_mono et check rule Hm h.edges (h, false)
    refine ⟨Hm' g, fun fuel => ?_⟩
    have := simpLoop_force_one (edgeSimpRound et check rule) Hm' fuel g false
    rw [Bool.false_or] at this
    exact this

/-- Witness for the amended C2 at a concrete input. -/
theorem force_reduce_amended_witness :
    numVertices (vertexSimpRound noopCheck noopRule gOne).1 ≤ numVertices gOne ∧
    ∀ fuel, vertexSimp noopCheck noopRule true (fuel + 1) gOne =
      some (vertexSimpRound noopCheck noopRule gOne) :=
  force_reduce_amended.1 noopCheck noopRule gOne (fun _ _ _ => le_rfl)

/-- C3 counterexample: the claim says every round of `clifford_simp`
performs one generalized-pivot sweep after the interior pass.  The
instrumented run on `gSkip` has two rounds; in the first the interior
pass matches and — because `||` short-circuits — no generalized-pivot
sweep is executed at all (round record `(true, false, false)`); the
sweep only runs in the second round, where the interior pass failed. -/
theorem clifford_skips_gen_pivot_ce :
    cliffordLoopTr skipLib 10 10 10 gSkip =
      some (gSkipF, true, [(true, false, false), (false, true, false)]) := by
  decide

/-- C3 as amended: in each round the generalized-pivot sweep runs only
when `interior_clifford_simp` reported no match; rounds repeat until a
round contributes nothing, so at return the final graph is a fixpoint of
the whole round (re-running interior-then-gen-pivot on it reports no
match and returns it unchanged), and when `clifford_simp` returns false
the graph it returns is exactly what `interior_clifford_simp` produced
while reporting no match. -/
theorem clifford_simp_amended : ∀ (L : RuleLib) (F ifuel fuel : Nat)
    (g g' : Graph) (b : Bool),
    cliffordSimp L F ifuel fuel g = some (g', b) →
    cliffordRound L F ifuel g' = some (g', false) ∧
    (b = false → interiorCliffordSimp L F ifuel g = some (g', false)) := by
  intro L F ifuel fuel g g' b h
  constructor
  · refine simpLoopO_final (cliffordRound L F ifuel) ?_ fuel g false g' b h
    intro h2 r' hr' hb2
    have hr'' : cliffordRound L F ifuel h2 = some (r'.1, false) := by
      rw [hr', prodBool_eta r' (by simp [hb2])]
    exact clifford_round_idem L F ifuel h2 r'.1 hr''
  · intro hb
    subst hb
    have hround := simpLoopO_false_round (cliffordRound L F ifuel) fuel g g' h
    simp only [cliffordRound] at hround
    cases hint : interiorCliffordSimp L F ifuel g with
    | none => rw [hint] at hround; simp at hround
    | some p =>
      rw [hint] at hround
      simp only [Option.some_bind] at hround
      by_cases hp : p.2 = true
      · rw [if_pos hp] at hround; simp at hround
      · rw [if_neg hp] at hround
        cases hgp : genPivotSimp L F p.1 with
        | none => rw [hgp] at hround; simp at hround
        | some q =>
          rw [hgp] at hround
          simp only [Option.some_bind, Option.some.injEq, Prod.mk.injEq] at hround
          have hq2 : q.2 = false := hround.2
          have hq1 : q.1 = g' := hround.1
          have hqp : q.1 = p.1 :=
            (edgeSimp_false EType.H L.checkGenPivotReduce L.genPivotUnchecked false F
              p.1 q.1 (by
                rw [show edgeSimp EType.H L.checkGenPivotReduce L.genPivotUnchecked
                    false F p.1 = some q from hgp,
                  prodBool_eta q (by simp [hq2])])).1
          have hpe : p = (g', false) := by
            cases p
            simp_all
          rw [hpe]

/-- Witness for the amended C3 at a concrete input. -/
theorem clifford_simp_amended_witness :
    cliffordRound trivLib 1 1 gEmpty = some (gEmpty, false) ∧
    interiorCliffordSimp trivLib 1 1 gEmpty = some (gEmpty, false) := by
  have h := clifford_simp_amended trivLib 1 1 1 gEmpty gEmpty false (by decide)
  exact ⟨h.1, h.2 rfl⟩

/-- C4 counterexample: the claim reads the loop body as running all four
passes each round; because `||` short-circuits, later passes are skipped
in a round as soon as an earlier one matches, and this is observable:
on `gSC` the real `interior_clifford_simp` retries identity-removal
before pivot and the flag edge (14,15) survives, whereas the spec's
all-four-each-round reading runs pivot inside the first round and
consumes it — the two computations return different graphs. -/
theorem interior_clifford_short_circuit_ce :
    (interiorCliffordSimp scLib 10 10 gSC).map
      (fun r => hasEdge r.1 14 15 EType.H) = some true ∧
    (interiorCliffordSimpSpec scLib 10 10 gSC).map
      (fun r => hasEdge r.1 14 15 EType.H) = some false ∧
    interiorCliffordSimp scLib 10 10 gSC ≠ interiorCliffordSimpSpec scLib 10 10 gSC := by
  exact ⟨by decide, by decide, by decide⟩

/-- C4 as amended: after the initial spider-fusion and X-to-Z
conversion, each round tries the four passes in order, stopping at the
first that matches; rounds continue until a round in which all four
fail, so the returned graph is a fixpoint of the four-pass round, and
when no round made progress the result is exactly the canonicalized
(spider-fused, X-to-Z converted) input. -/
theorem interior_clifford_amended : ∀ (L : RuleLib) (F fuel : Nat)
    (g g' : Graph) (b : Bool),
    interiorCliffordSimp L F fuel g = some (g', b) →
    fourPassRound L F g' = some (g', false) ∧
    (b = false → ∃ p, spiderSimp L F g = some p ∧ g' = xToZ p.1) := by
  intro L F fuel g g' b h
  simp only [interiorCliffordSimp] at h
  cases hsp : spiderSimp L F g with
  | none => rw [hsp] at h; simp at h
  | some sp =>
    rw [hsp] at h
    simp only [Option.some_bind] at h
    constructor
    · exact simpLoopO_final (fourPassRound L F) (fourPass_idem L F) fuel
        (xToZ sp.1) false g' b h
    · intro hb
      subst hb
      refine ⟨sp, rfl, ?_⟩
      refine simpLoopO_false_eq (fourPassRound L F) ?_ fuel (xToZ sp.1) g' h
      intro h2 r' hr' hb2
      exact (fourPass_false_parts L F h2 r'.1
        (by rw [hr', prodBool_eta r' (by simp [hb2])])).1

/-- Witness for the amended C4 at a concrete input. -/
theorem interior_clifford_amended_witness :
    fourPassRound trivLib 1 gEmpty = some (gEmpty, false) ∧
    (∃ p, spiderSimp trivLib 1 gEmpty = some p ∧ gEmpty = xToZ p.1) := by
  have h := interior_clifford_amended trivLib 1 1 gEmpty gEmpty false (by decide)
  exact ⟨h.1, h.2 rfl⟩

theorem noop_loop_none : ∀ (fuel : Nat) (gm : Bool),
    simpLoop (vertexSimpRound noopCheck noopRule) false fuel gOne gm = none := by
  have hround : vertexSimpRound noopCheck noopRule gOne = (gOne, true) := by decide
  intro fuel
  induction fuel with
  | zero => intro gm; rfl
  | succ n ih =>
    intro gm
    simp only [simpLoop, hround]
    simpa using ih true

/-- C5 counterexample: the stated precondition ("the rewrite deletes at
most the matched vertex and introduces no new vertices") does not imply
termination: a rewrite that deletes nothing satisfies it
(`noopRule` leaves the vertex list untouched), yet with an all-true
check and `force_reduce = false` every round reports a match and the
driver's loop never reaches its exit, at any fuel bound. -/
theorem rewrite_contract_nontermination_ce :
    (∀ h v, (noopRule h v).verts = h.verts) ∧
    ¬ VertexSimpTerminates noopCheck noopRule false gOne := by
  refine ⟨fun _ _ => rfl, ?_⟩
  rintro ⟨fuel, r, hr⟩
  have h2 : (none : Option (Graph × Bool)) = some r := by
    rw [← noop_loop_none fuel false]
    exact hr
  simp at h2

/-- C5 as amended: a Rewrite Driver with `force_reduce = true`
terminates whenever no rewrite increases the vertex count (it stops
after one round); with any `force_reduce` it terminates within
`num_vertices + 1` rounds when every matching rewrite strictly
decreases the vertex count; under that strict-decrease contract for the
whole rule library, `interior_clifford_simp`, `clifford_simp` and
`full_simp` all terminate; and a `fuse_gadgets` call that reports a
fusion strictly decreased the vertex count (so `full_simp`'s outer loop
also terminates). -/
theorem termination_amended :
    (∀ (check : Graph → V → Bool) (rule : Graph → V → Graph) (g : Graph),
      (∀ h v, check h v = true → numVertices (rule h v) ≤ numVertices h) →
      ∃ r, vertexSimp check rule true 1 g = some r) ∧
    (∀ (et : EType) (check : Graph → V → V → Bool) (rule : Graph → V → V → Graph)
      (g : Graph),
      (∀ h s t, check h s t = true → numVertices (rule h s t) ≤ numVertices h) →
      ∃ r, edgeSimp et check rule true 1 g = some r) ∧
    (∀ (check : Graph → V → Bool) (rule : Graph → V → Graph) (fr : Bool) (g : Graph),
      (∀ h v, check h v = true → numVertices (rule h v) < numVertices h) →
      ∃ r, vertexSimp check rule fr (numVertices g + 1) g = some r) ∧
    (∀ (et : EType) (check : Graph → V → V → Bool) (rule : Graph → V → V → Graph)
      (fr : Bool) (g : Graph),
      (∀ h s t, check h s t = true → numVertices (rule h s t) < numVertices h) →
      ∃ r, edgeSimp et check rule fr (numVertices g + 1) g = some r) ∧
    (∀ (L : RuleLib) (g : Graph), StrictLib L →
      ∃ r, interiorCliffordSimp L (numVertices g + 1) (numVertices g + 1) g = some r) ∧
    (∀ (L : RuleLib) (g : Graph), StrictLib L →
      ∃ r, cliffordSimp L (numVertices g + 1) (numVertices g + 1)
        (numVertices g + 1) g = some r) ∧
    (∀ (L : RuleLib) (g : Graph), StrictLib L →
      ∃ r, fullSimp L (numVertices g + 1) (numVertices g + 1) (numVertices g + 1)
        (numVertices g + 1) g = some r) ∧
    (∀ g : Graph, (fuseGadgets g).2 = true →
      numVertices (fuseGadgets g).1 < numVertices g) := by
  refine ⟨?_, ?_, ?_, ?_, ?_, ?_, ?_, fuseGadgets_strict⟩
  · intro check rule g Hm
    have Hm' : ∀ h, numVertices (vertexSimpRound check rule h).1 ≤ numVertices h :=
      fun h => vertexFold_mono check rule Hm h.verts (h, false)
    exact ⟨_, simpLoop_force_one (vertexSimpRound check rule) Hm' 0 g false⟩
  · intro et check rule g Hm
    have Hm' : ∀ h, numVertices (edgeSimpRound et check rule h).1 ≤ numVertices h :=
      fun h => edgeFold_mono et check rule Hm h.edges (h, false)
    exact ⟨_, simpLoop_force_one (edgeSimpRound et check rule) Hm' 0 g false⟩
  · intro check rule fr g Hs
    obtain ⟨r, hr, _, _⟩ := vertexSimp_good check rule Hs fr (numVertices g + 1) g
      (by omega)
    exact ⟨r, hr⟩
  · intro et check rule fr g Hs
    obtain ⟨r, hr, _, _⟩ := edgeSimp_good et check rule Hs fr (numVertices g + 1) g
      (by omega)
    exact ⟨r, hr⟩
  · intro L g HL
    obtain ⟨r, hr, _, _⟩ := interior_good L HL (numVertices g + 1)
      (numVertices g + 1) g (by omega) (by omega)
    exact ⟨r, hr⟩
  · intro L g HL
    obtain ⟨r, hr, _, _⟩ := cliffordSimp_good L HL (numVertices g + 1)
      (numVertices g + 1) (numVertices g + 1) g (by omega) (by omega) (by omega)
    exact ⟨r, hr⟩
  · intro L g HL
    obtain ⟨r, hr, _, _⟩ := fullSimp_good L HL (numVertices g + 1)
      (numVertices g + 1) (numVertices g + 1) (numVertices g + 1) g
      (by omega) (by omega) (by omega) (by omega)
    exact ⟨r, hr⟩

/-- Witness for the amended C5 at concrete inputs: `force_reduce = true`
rescues the non-terminating no-op pair, and `full_simp` terminates on
the empty diagram under the trivially strict library. -/
theorem termination_amended_witness :
    (∃ r, vertexSimp noopCheck noopRule true 1 gOne = some r) ∧
    (∃ r, fullSimp trivLib 1 1 1 1 gEmpty = some r) :=
  ⟨termination_amended.1 noopCheck noopRule gOne (fun _ _ _ => le_rfl),
   termination_amended.2.2.2.2.2.2.1 trivLib gEmpty
     ⟨fun _ _ h => Bool.noConfusion h, fun _ _ h => Bool.noConfusion h,
      fun _ _ _ h => Bool.noConfusion h, fun _ _ _ h => Bool.noConfusion h,
      fun _ _ _ h => Bool.noConfusion h⟩⟩

/-- C6: in every `edge_simp` round, `check` is evaluated — and `rule`
invoked — only on snapshotted triples whose kind equals the requested
`edge_type` and whose two endpoints still exist in the diagram at that
moment; the instrumented round records every `check` and every `rule`
invocation and computes the same graph and flag as the plain round. -/
theorem edge_simp_revalidation : ∀ (et : EType) (check : Graph → V → V → Bool)
    (rule : Graph → V → V → Graph) (g : Graph),
    ((edgeSimpRoundTr et check rule g).1 = (edgeSimpRound et check rule g).1 ∧
      (edgeSimpRoundTr et check rule g).2.1 = (edgeSimpRound et check rule g).2) ∧
    (∀ x ∈ (edgeSimpRoundTr et check rule g).2.2.1,
      x.2.2.2 = et ∧ containsVertex x.1 x.2.1 = true ∧
        containsVertex x.1 x.2.2.1 = true) ∧
    (∀ x ∈ (edgeSimpRoundTr et check rule g).2.2.2,
      x.2.2.2 = et ∧ containsVertex x.1 x.2.1 = true ∧
        containsVertex x.1 x.2.2.1 = true) :=
  fun et check rule g =>
    ⟨edgeSimpRoundTr_agrees et check rule g,
     (edgeSimpRoundTr_valid et check rule g).1,
     (edgeSimpRoundTr_valid et check rule g).2⟩

/-- Witness for C6 at a concrete input: the one recorded rule invocation
on `gW6` is on kind H with both endpoints alive. -/
theorem edge_simp_revalidation_witness :
    EType.H = EType.H ∧ containsVertex gW6 0 = true ∧ containsVertex gW6 1 = true :=
  (edge_simp_revalidation EType.H wEdgeCheck wEdgeRule gW6).2.2
    (gW6, 0, 1, EType.H) (by decide)

/-- C7: `vertex_simp` evaluates `check` on every handle of the round's
snapshot, in order, with no existence re-check (the recorded check
invocations are exactly the snapshot); consequently, when an earlier
match deletes a vertex appearing later in the snapshot — as
`danglingRule` deletes vertex 1 while matched at vertex 0 — `check` is
invoked on the dangling handle (the second recorded invocation is on
vertex 1 in a graph that no longer contains it). -/
theorem vertex_simp_no_revalidation :
    (∀ (check : Graph → V → Bool) (rule : Graph → V → Graph) (g : Graph),
      ((vertexSimpRoundTr check rule g).2.2).map Prod.snd = g.verts ∧
      (vertexSimpRoundTr check rule g).1 = (vertexSimpRound check rule g).1 ∧
      (vertexSimpRoundTr check rule g).2.1 = (vertexSimpRound check rule g).2) ∧
    ((vertexSimpRoundTr danglingCheck danglingRule gDang).2.2 =
        [(gDang, 0), (gDang1, 1)] ∧
      containsVertex gDang1 1 = false) := by
  constructor
  · intro check rule g
    exact ⟨vertexSimpRoundTr_checks check rule g,
      (vertexSimpRoundTr_agrees check rule g).1,
      (vertexSimpRoundTr_agrees check rule g).2⟩
  · exact ⟨by decide, by decide⟩

/-- C8: when no signature group collected by `fuse_gadgets` holds more
than one (hub, leaf) pair the call returns `false` and leaves the
diagram exactly as it was; and it returns `true` if and only if some
collected group holds more than one pair. -/
theorem fuse_gadgets_frame : ∀ g : Graph,
    ((∀ kv ∈ buildGadgets g, kv.2.length ≤ 1) → fuseGadgets g = (g, false)) ∧
    ((fuseGadgets g).2 = true ↔ ∃ kv ∈ buildGadgets g, 1 < kv.2.length) := by
  intro g
  constructor
  · intro hshort
    exact fuseGroupsFold_noop (buildGadgets g) (g, false) hshort
  · constructor
    · intro htrue
      by_contra hno
      push_neg at hno
      have hshort : ∀ kv ∈ buildGadgets g, kv.2.length ≤ 1 := by
        intro kv hkv
        have := hno kv hkv
        omega
      have hfix : fuseGadgets g = (g, false) :=
        fuseGroupsFold_noop (buildGadgets g) (g, false) hshort
      rw [hfix] at htrue
      simp at htrue
    · intro hex
      exact fuseGroupsFold_true_of_long (buildGadgets g) (g, false) hex

/-- Witness for C8 at a concrete input. -/
theorem fuse_gadgets_frame_witness : fuseGadgets gEmpty = (gEmpty, false) :=
  (fuse_gadgets_frame gEmpty).1 (by decide)

/-- C9: each Named Simplification Pass is a true fixpoint operator: if a
call returns false it did not mutate the diagram, and an immediately
repeated call (any positive fuel) again returns false without mutating
it. -/
theorem named_passes_fixpoint : ∀ (L : RuleLib) (F : Nat) (g g' : Graph),
    (idSimp L F g = some (g', false) →
      g' = g ∧ ∀ F', idSimp L (F' + 1) g = some (g, false)) ∧
    (localCompSimp L F g = some (g', false) →
      g' = g ∧ ∀ F', localCompSimp L (F' + 1) g = some (g, false)) ∧
    (spiderSimp L F g = some (g', false) →
      g' = g ∧ ∀ F', spiderSimp L (F' + 1) g = some (g, false)) ∧
    (pivotSimp L F g = some (g', false) →
      g' = g ∧ ∀ F', pivotSimp L (F' + 1) g = some (g, false)) ∧
    (genPivotSimp L F g = some (g', false) →
      g' = g ∧ ∀ F', genPivotSimp L (F' + 1) g = some (g, false)) := by
  intro L F g g'
  refine ⟨?_, ?_, ?_, ?_, ?_⟩
  · intro h
    have hf := vertexSimp_false L.checkRemoveId L.removeIdUnchecked false F g g' h
    exact ⟨hf.1, fun F' => vertexSimp_rerun L.checkRemoveId L.removeIdUnchecked
      false F' g hf.2⟩
  · intro h
    have hf := vertexSimp_false L.checkLocalComp L.localCompUnchecked false F g g' h
    exact ⟨hf.1, fun F' => vertexSimp_rerun L.checkLocalComp L.localCompUnchecked
      false F' g hf.2⟩
  · intro h
    have hf := edgeSimp_false EType.N L.checkSpiderFusion L.spiderFusionUnchecked
      false F g g' h
    exact ⟨hf.1, fun F' => edgeSimp_rerun EType.N L.checkSpiderFusion
      L.spiderFusionUnchecked false F' g hf.2⟩
  · intro h
    have hf := edgeSimp_false EType.H L.checkPivot L.pivotUnchecked false F g g' h
    exact ⟨hf.1, fun F' => edgeSimp_rerun EType.H L.checkPivot L.pivotUnchecked
      false F' g hf.2⟩
  · intro h
    have hf := edgeSimp_false EType.H L.checkGenPivotReduce L.genPivotUnchecked
      false F g g' h
    exact ⟨hf.1, fun F' => edgeSimp_rerun EType.H L.checkGenPivotReduce
      L.genPivotUnchecked false F' g hf.2⟩

/-- Witness for C9 at a concrete input: identity-removal on the empty
diagram returns false, and the repeated call returns false on the
unchanged diagram. -/
theorem named_passes_fixpoint_witness :
    idSimp trivLib 2 gEmpty = some (gEmpty, false) :=
  ((named_passes_fixpoint trivLib 1 gEmpty gEmpty).1 (by decide)).2 1

/-- C10: `interior_clifford_simp` can mutate the diagram while
returning false: on a single X-vertex nothing in the fixpoint rounds
matches, so the call reports no match, yet the unconditional X-to-Z
conversion changed the diagram. -/
theorem interior_clifford_silent_mutation :
    interiorCliffordSimp trivLib 1 1 gX10 = some (gZ10, false) ∧ gZ10 ≠ gX10 := by
  exact ⟨by decide, by decide⟩

end QuizX
